import Mathlib

/-
Verification development for the corner-feature detection utilities
(src/utils.py): boundary-aware 2D convolution, Gaussian kernel synthesis,
local-maxima extraction, and the two ANMS variants.

Images are modeled as rectangular arrays: a shape (rows, cols) together with
a total data function; cells outside the shape are irrelevant junk, and
array equality is compared through Img.toLists.  Scores are kept generic
where the code only adds/multiplies (CommRing) or compares (LinearOrder);
the ANMS stage, which uses numpy float square roots, is instantiated at ℝ
with Real.sqrt.  numpy's np.empty is modeled as an all-zero start function;
every cell the code reads is overwritten first under the size hypotheses
carried by the theorems below.
-/

namespace FM

/-- A 2D array: shape plus data. Mirrors a numpy 2D array of samples. -/
structure Img (α : Type) where
  rows : Nat
  cols : Nat
  data : Nat → Nat → α

namespace Img

/-- The in-shape cells as a list of rows; used to compare arrays. -/
def toLists {α : Type} (im : Img α) : List (List α) :=
  (List.range im.rows).map (fun k => (List.range im.cols).map (fun j => im.data k j))

/-- Apply a function to every cell. -/
def map {α β : Type} (im : Img α) (f : α → β) : Img β :=
  { rows := im.rows, cols := im.cols, data := fun k j => f (im.data k j) }

/-- All in-shape cells in row-major order. -/
def toFlat {α : Type} (im : Img α) : List α :=
  (List.range im.rows).flatMap (fun k => (List.range im.cols).map (fun j => im.data k j))

/-- Embedding of numpy min over all cells (H.min()): the minimum of the
in-shape cells, or none on an empty array, where np.ndarray.min raises
ValueError (zero-size array to reduction operation minimum). -/
def minVal {α : Type} [LinearOrder α] (im : Img α) : Option α :=
  im.toFlat.min?

/-- Embedding of numpy mean over all cells (H.mean()). -/
noncomputable def mean (im : Img ℝ) : ℝ :=
  im.toFlat.sum / ((im.rows * im.cols : Nat) : ℝ)

/-- Embedding of numpy population standard deviation (H.std()). -/
noncomputable def std (im : Img ℝ) : ℝ :=
  Real.sqrt (((im.toFlat.map (fun x => (x - im.mean) ^ 2)).sum) /
    ((im.rows * im.cols : Nat) : ℝ))

/-- Embedding of the slice H[edge:-edge, edge:-edge].  For edge = 0 the
Python slice is H[0:0, 0:0], an empty array, hence the explicit zero shape;
otherwise numpy clips the size at 0. -/
def trim {α : Type} (im : Img α) (edge : Nat) : Img α :=
  { rows := if edge = 0 then 0 else im.rows - 2 * edge,
    cols := if edge = 0 then 0 else im.cols - 2 * edge,
    data := fun v u => im.data (v + edge) (u + edge) }

end Img

/-- Embedding of `_convolve(g, h)`: the interior double loop.  The kernel is
flipped along both axes (h180 = h[::-1, ::-1]) and correlated with the image
chunk; cells the loop does not reach keep the np.zeros_like default. -/
def conv {α : Type} [CommRing α] (g h : Img α) : Img α :=
  let radius := h.rows / 2
  { rows := g.rows, cols := g.cols,
    data := fun v u =>
      if radius ≤ v ∧ v < g.rows - radius ∧ radius ≤ u ∧ u < g.cols - radius then
        ∑ i ∈ Finset.range h.rows, ∑ j ∈ Finset.range h.cols,
          g.data (v - radius + i) (u - radius + j) *
            h.data (h.rows - 1 - i) (h.cols - 1 - j)
      else 0 }

/-- One numpy block assignment a[y0:y0+h, x0:x0+w] = src, where src is read
in the block's local coordinates. -/
def setBlock {α : Type} (a : Nat → Nat → α) (y0 x0 h w : Nat)
    (src : Nat → Nat → α) : Nat → Nat → α :=
  fun y x =>
    if y0 ≤ y ∧ y < y0 + h ∧ x0 ≤ x ∧ x < x0 + w then src (y - y0) (x - x0) else a y x

/-- The interior assignment conv_input[r:-r, r:-r] = img.  For r ≥ 1 the
destination slice has exactly the image's shape; for r = 0 the Python slice
is the empty [0:0, 0:0], so nothing is written (numpy broadcasts only a 1×1
image into the empty slice, as a no-op; an image with a dimension of at
least 2 raises a broadcast ValueError, which convolve2d models before any
padded input is used). -/
def interiorSet {α : Type} (img : Img α) (r : Nat) (a : Nat → Nat → α) :
    Nat → Nat → α :=
  setBlock a r r (if r = 0 then 0 else img.rows) (if r = 0 then 0 else img.cols)
    img.data

/-- Padded input for boundary_mode = "fill": every cell starts at the fill
value, then the interior slice receives the image. -/
def fillInput {α : Type} (img : Img α) (r : Nat) (fill : α) : Nat → Nat → α :=
  interiorSet img r (fun _ _ => fill)

/-- Padded input for boundary_mode = "extend": interior first, then the top,
bottom, left and right margins replicate the nearest edge row/column, in the
source's assignment order (each step reads the array produced so far). -/
def extendInput {α : Type} [CommRing α] (img : Img α) (r : Nat) : Nat → Nat → α :=
  let m := img.rows
  let n := img.cols
  let a1 := interiorSet img r (fun _ _ => 0)
  let a2 := setBlock a1 0 0 r (n + 2 * r) (fun _ x => a1 r x)
  let a3 := setBlock a2 (m + r) 0 r (n + 2 * r) (fun _ x => a2 (m + r - 1) x)
  let a4 := setBlock a3 0 0 (m + 2 * r) r (fun y _ => a3 y r)
  setBlock a4 0 (n + r) (m + 2 * r) r (fun y _ => a4 y (n + r - 1))

/-- Padded input for boundary_mode = "mirror": interior first, then each
margin is a flipped copy of the adjacent band of width r, in the source's
assignment order.  Top: rows r..2r-1 flipped; bottom: rows m..m+r-1 flipped;
then the same for columns. -/
def mirrorInput {α : Type} [CommRing α] (img : Img α) (r : Nat) : Nat → Nat → α :=
  let m := img.rows
  let n := img.cols
  let a1 := interiorSet img r (fun _ _ => 0)
  let a2 := setBlock a1 0 0 r (n + 2 * r) (fun y x => a1 (2 * r - 1 - y) x)
  let a3 := setBlock a2 (m + r) 0 r (n + 2 * r) (fun y x => a2 (m + (r - 1 - y)) x)
  let a4 := setBlock a3 0 0 (m + 2 * r) r (fun y x => a3 y (2 * r - 1 - x))
  setBlock a4 0 (n + r) (m + 2 * r) r (fun y x => a4 y (n + (r - 1 - x)))

/-- Padded input for boundary_mode = "wrap": the four side bands and the four
corner blocks are copied from the opposite edges of the image. -/
def wrapInput {α : Type} [CommRing α] (img : Img α) (r : Nat) : Nat → Nat → α :=
  let m := img.rows
  let n := img.cols
  let a1 := interiorSet img r (fun _ _ => 0)
  let a2 := setBlock a1 0 r r n (fun y x => img.data (m - r + y) x)
  let a3 := setBlock a2 (m + r) r r n (fun y x => img.data y x)
  let a4 := setBlock a3 r 0 m r (fun y x => img.data y (n - r + x))
  let a5 := setBlock a4 r (n + r) m r (fun y x => img.data y x)
  let a6 := setBlock a5 0 0 r r (fun y x => img.data (m - r + y) (n - r + x))
  let a7 := setBlock a6 0 (n + r) r r (fun y x => img.data (m - r + y) x)
  let a8 := setBlock a7 (m + r) 0 r r (fun y x => img.data y (n - r + x))
  setBlock a8 (m + r) (n + r) r r (fun y x => img.data y x)

/-- The extended array of shape (rows + 2r, cols + 2r) holding a padded input. -/
def extended {α : Type} (img : Img α) (r : Nat) (d : Nat → Nat → α) : Img α :=
  { rows := img.rows + 2 * r, cols := img.cols + 2 * r, data := d }

/-- The final crop conv_out[r:-r, r:-r].  For r = 0 the Python slice is
conv_out[0:0, 0:0], an empty array (since -0 == 0), hence the explicit zero
shape. -/
def cropBack {α : Type} (g : Img α) (r : Nat) : Img α :=
  { rows := if r = 0 then 0 else g.rows - 2 * r,
    cols := if r = 0 then 0 else g.cols - 2 * r,
    data := fun v u => g.data (v + r) (u + r) }

/-- Embedding of `convolve2d(img, kern, boundary_mode, fill=0)`.  The raised
ValueError for an unknown mode is modeled as Except.error, as is the numpy
broadcast ValueError hit by every recognized padding mode when
r = kern.rows / 2 = 0: the first padding step conv_input[0:-0, 0:-0] = img
assigns into the empty slice, and an image with a dimension of at least 2
cannot be broadcast into it.  (A 1×1 image broadcasts as a no-op; its final
crop conv_out[0:-0, 0:-0] is then the empty array.) -/
def convolve2d {α : Type} [CommRing α] (img kern : Img α) (boundary_mode : String)
    (fill : α) : Except String (Img α) :=
  let r := kern.rows / 2
  if boundary_mode = "valid" then .ok (conv img kern)
  else if boundary_mode = "fill" then
    if r = 0 ∧ (2 ≤ img.rows ∨ 2 ≤ img.cols) then
      .error "ValueError: could not broadcast input array"
    else .ok (cropBack (conv (extended img r (fillInput img r fill)) kern) r)
  else if boundary_mode = "extend" then
    if r = 0 ∧ (2 ≤ img.rows ∨ 2 ≤ img.cols) then
      .error "ValueError: could not broadcast input array"
    else .ok (cropBack (conv (extended img r (extendInput img r)) kern) r)
  else if boundary_mode = "mirror" then
    if r = 0 ∧ (2 ≤ img.rows ∨ 2 ≤ img.cols) then
      .error "ValueError: could not broadcast input array"
    else .ok (cropBack (conv (extended img r (mirrorInput img r)) kern) r)
  else if boundary_mode = "wrap" then
    if r = 0 ∧ (2 ≤ img.rows ∨ 2 ≤ img.cols) then
      .error "ValueError: could not broadcast input array"
    else .ok (cropBack (conv (extended img r (wrapInput img r)) kern) r)
  else .error ("Invalide boundary mode: " ++ boundary_mode)

theorem convolve2d_pad_mode {α : Type} [CommRing α] (img kern : Img α) (fill : α)
    (r : Nat) (hrad : kern.rows / 2 = r) (hr : 1 ≤ r) :
    convolve2d img kern "fill" fill =
      .ok (cropBack (conv (extended img r (fillInput img r fill)) kern) r) ∧
    convolve2d img kern "extend" fill =
      .ok (cropBack (conv (extended img r (extendInput img r)) kern) r) ∧
    convolve2d img kern "mirror" fill =
      .ok (cropBack (conv (extended img r (mirrorInput img r)) kern) r) ∧
    convolve2d img kern "wrap" fill =
      .ok (cropBack (conv (extended img r (wrapInput img r)) kern) r) := by
  subst hrad
  refine ⟨?_, ?_, ?_, ?_⟩
  · show (if kern.rows / 2 = 0 ∧ (2 ≤ img.rows ∨ 2 ≤ img.cols) then _ else _) = _
    rw [if_neg (show ¬(kern.rows / 2 = 0 ∧ (2 ≤ img.rows ∨ 2 ≤ img.cols)) from
      by omega)]
  · show (if kern.rows / 2 = 0 ∧ (2 ≤ img.rows ∨ 2 ≤ img.cols) then _ else _) = _
    rw [if_neg (show ¬(kern.rows / 2 = 0 ∧ (2 ≤ img.rows ∨ 2 ≤ img.cols)) from
      by omega)]
  · show (if kern.rows / 2 = 0 ∧ (2 ≤ img.rows ∨ 2 ≤ img.cols) then _ else _) = _
    rw [if_neg (show ¬(kern.rows / 2 = 0 ∧ (2 ≤ img.rows ∨ 2 ≤ img.cols)) from
      by omega)]
  · show (if kern.rows / 2 = 0 ∧ (2 ≤ img.rows ∨ 2 ≤ img.cols) then _ else _) = _
    rw [if_neg (show ¬(kern.rows / 2 = 0 ∧ (2 ≤ img.rows ∨ 2 ≤ img.cols)) from
      by omega)]

theorem convolve2d_pad_cases {α : Type} [CommRing α] (img kern : Img α) (fill : α)
    (mode : String) (hmem : mode ∈ ["fill", "extend", "mirror", "wrap"]) :
    (∃ out : Img α, convolve2d img kern mode fill = .ok out) ∨
      convolve2d img kern mode fill =
        .error "ValueError: could not broadcast input array" := by
  fin_cases hmem
  · by_cases hc : kern.rows / 2 = 0 ∧ (2 ≤ img.rows ∨ 2 ≤ img.cols)
    · refine Or.inr ?_
      show (if kern.rows / 2 = 0 ∧ (2 ≤ img.rows ∨ 2 ≤ img.cols) then _ else _) = _
      rw [if_pos hc]
    · refine Or.inl ⟨cropBack (conv (extended img (kern.rows / 2)
        (fillInput img (kern.rows / 2) fill)) kern) (kern.rows / 2), ?_⟩
      show (if kern.rows / 2 = 0 ∧ (2 ≤ img.rows ∨ 2 ≤ img.cols) then _ else _) = _
      rw [if_neg hc]
  · by_cases hc : kern.rows / 2 = 0 ∧ (2 ≤ img.rows ∨ 2 ≤ img.cols)
    · refine Or.inr ?_
      show (if kern.rows / 2 = 0 ∧ (2 ≤ img.rows ∨ 2 ≤ img.cols) then _ else _) = _
      rw [if_pos hc]
    · refine Or.inl ⟨cropBack (conv (extended img (kern.rows / 2)
        (extendInput img (kern.rows / 2))) kern) (kern.rows / 2), ?_⟩
      show (if kern.rows / 2 = 0 ∧ (2 ≤ img.rows ∨ 2 ≤ img.cols) then _ else _) = _
      rw [if_neg hc]
  · by_cases hc : kern.rows / 2 = 0 ∧ (2 ≤ img.rows ∨ 2 ≤ img.cols)
    · refine Or.inr ?_
      show (if kern.rows / 2 = 0 ∧ (2 ≤ img.rows ∨ 2 ≤ img.cols) then _ else _) = _
      rw [if_pos hc]
    · refine Or.inl ⟨cropBack (conv (extended img (kern.rows / 2)
        (mirrorInput img (kern.rows / 2))) kern) (kern.rows / 2), ?_⟩
      show (if kern.rows / 2 = 0 ∧ (2 ≤ img.rows ∨ 2 ≤ img.cols) then _ else _) = _
      rw [if_neg hc]
  · by_cases hc : kern.rows / 2 = 0 ∧ (2 ≤ img.rows ∨ 2 ≤ img.cols)
    · refine Or.inr ?_
      show (if kern.rows / 2 = 0 ∧ (2 ≤ img.rows ∨ 2 ≤ img.cols) then _ else _) = _
      rw [if_pos hc]
    · refine Or.inl ⟨cropBack (conv (extended img (kern.rows / 2)
        (wrapInput img (kern.rows / 2))) kern) (kern.rows / 2), ?_⟩
      show (if kern.rows / 2 = 0 ∧ (2 ≤ img.rows ∨ 2 ≤ img.cols) then _ else _) = _
      rw [if_neg hc]

/-- The 8-neighborhood strict-maximum test of `get_maxima`, in the source's
grouping: the 3 cells of the row above, the 3 cells of the row below, then
the two horizontal neighbors im[k, j-1:j+2:2]. -/
def strictMax8 {α : Type} [LinearOrder α] (im : Img α) (k j : Nat) : Bool :=
  decide (im.data (k - 1) (j - 1) < im.data k j ∧
    im.data (k - 1) j < im.data k j ∧
    im.data (k - 1) (j + 1) < im.data k j ∧
    im.data (k + 1) (j - 1) < im.data k j ∧
    im.data (k + 1) j < im.data k j ∧
    im.data (k + 1) (j + 1) < im.data k j ∧
    im.data k (j - 1) < im.data k j ∧
    im.data k (j + 1) < im.data k j)

/-- Embedding of `get_maxima(im, threshold, sort=False)`: scan the interior
cells k in range(1, m-1), j in range(1, n-1) in row-major order, skip cells
below the threshold, keep strict 8-neighborhood maxima as (j, k, value)
tuples, and optionally sort by value descending (Python's stable sort with
reverse=True keeps insertion order among equal values, as mergeSort does
with this comparison). -/
def get_maxima {α : Type} [LinearOrder α] (im : Img α) (threshold : α)
    (sortFlag : Bool) : List (Nat × Nat × α) :=
  let points := (List.range' 1 (im.rows - 2)).flatMap (fun k =>
    (List.range' 1 (im.cols - 2)).filterMap (fun j =>
      if im.data k j < threshold then none
      else if strictMax8 im k j then some (j, k, im.data k j) else none))
  if sortFlag then points.mergeSort (fun a b => decide (b.2.2 ≤ a.2.2)) else points

/-- Embedding of Python int() (truncation toward zero) on a rational. -/
def pyInt (q : ℚ) : ℤ := if 0 ≤ q then ⌊q⌋ else ⌈q⌉

/-- Embedding of the Python modulo q % m (floored, matching Python's float
and int % for a positive modulus). -/
def pyMod (q m : ℚ) : ℚ := q - m * ((⌊q / m⌋ : ℤ) : ℚ)

/-- The kernel-size expression int(5 * sigma) + (1 - (sigma % 2)) of
`gaussian`.  For a non-integer sigma this is in general not an integer. -/
def gaussianSide (sigma : ℚ) : ℚ := ((pyInt (5 * sigma) : ℤ) : ℚ) + (1 - pyMod sigma 2)

/-- The unnormalized Gaussian weight h[k, j] built by `get_gaussian_kernel`:
exp(-((j - mean)^2 + (k - mean)^2) / (2 * sigma^2)) with mean = n // 2. -/
noncomputable def gRaw (n : Nat) (sigma : ℚ) (k j : Nat) : ℝ :=
  Real.exp (-(((j : ℝ) - ((n / 2 : Nat) : ℝ)) ^ 2 + ((k : ℝ) - ((n / 2 : Nat) : ℝ)) ^ 2) /
    (2 * (sigma : ℝ) ^ 2))

/-- The normalization constant h.sum() of `get_gaussian_kernel`. -/
noncomputable def gTotal (n : Nat) (sigma : ℚ) : ℝ :=
  ∑ k ∈ Finset.range n, ∑ j ∈ Finset.range n, gRaw n sigma k j

/-- Embedding of `get_gaussian_kernel(n, sigma)`: raises (Except.error) when
the requested side length n is even, otherwise builds the n×n array of
Gaussian weights divided by their sum. -/
noncomputable def get_gaussian_kernel (n : Nat) (sigma : ℚ) : Except String (Img ℝ) :=
  if n % 2 = 0 then .error ("Kernel size must be odd: " ++ toString n)
  else .ok { rows := n, cols := n, data := fun k j => gRaw n sigma k j / gTotal n sigma }

/-- Embedding of `gaussian(sigma)`: computes n = int(5*sigma) + (1 - sigma % 2)
and builds the kernel.  In the source a non-integral n slips past the parity
check (a non-zero float is truthy) and np.empty((n, n)) then raises TypeError;
that failure is modeled here as Except.error at the call boundary. -/
noncomputable def gaussian (sigma : ℚ) : Except String (Img ℝ) :=
  let nq := gaussianSide sigma
  if ((⌊nq⌋ : ℤ) : ℚ) = nq ∧ 0 ≤ nq then get_gaussian_kernel (⌊nq⌋.toNat) sigma
  else .error "TypeError: kernel shape is not an integer"

/-- The zipped=False branch of `_maxima_to_uv`: split (u, v, r) triples into
the parallel u and v coordinate lists. -/
def maximaToUV (maxima : List (Nat × Nat × ℝ)) : List Nat × List Nat :=
  (maxima.map (fun p => p.1), maxima.map (fun p => p.2.1))

/-- The inner loop of `anms` for one candidate (u, v, h) at position i:
a running minimum, over all enumerated candidates, of the Euclidean distance
to candidates that are significantly stronger (h < c * hh), starting from
the sentinel rmax. -/
noncomputable def anmsRmin (maxima : List (Nat × Nat × ℝ)) (c rmax : ℝ)
    (i u v : Nat) (h : ℝ) : ℝ :=
  maxima.enum.foldl (fun rmin kp =>
    let d := Real.sqrt (((u : ℝ) - (kp.2.1 : ℝ)) ^ 2 + ((v : ℝ) - (kp.2.2.1 : ℝ)) ^ 2)
    if i ≠ kp.1 ∧ h < c * kp.2.2.2 ∧ d < rmin then d else rmin) rmax

/-- The reduction H.min() as the code uses it: np.ndarray.min raises
ValueError on an empty array, modeled as Except.error. -/
def npMin {α : Type} [LinearOrder α] (im : Img α) : Except String α :=
  match im.minVal with
  | some m => .ok m
  | none => .error "ValueError: zero-size array to reduction operation minimum"

/-- The threshold policy shared by anms and anms_kdtree: mean + std when
use_thresh (np.mean and np.std return nan without raising, even on an empty
array, and an empty map yields no candidates regardless of the threshold
value), else the minimum, whose reduction raises on an empty array. -/
noncomputable def anmsThresh (im : Img ℝ) (use_thresh : Bool) : Except String ℝ :=
  if use_thresh then .ok (im.mean + im.std) else npMin im

/-- Embedding of `anms(H, n, c, use_thresh)` (zipped=False): threshold the
response map (H.min() raises on an empty map), take its strict local maxima,
give each candidate the minimum distance to a significantly stronger
candidate (sentinel np.max(H.shape)**2 when none exists), sort by that
radius descending and return the first n as coordinate lists. -/
noncomputable def anms (H : Img ℝ) (n : Nat) (c : ℝ) (use_thresh : Bool) :
    Except String (List Nat × List Nat) :=
  match anmsThresh H use_thresh with
  | .error e => .error e
  | .ok thresh =>
    let maxima := get_maxima H thresh false
    let rmax : ℝ := ((max H.rows H.cols : Nat) : ℝ) ^ 2
    let anms_maxima := maxima.enum.map (fun ip =>
      (ip.2.1, ip.2.2.1, anmsRmin maxima c rmax ip.1 ip.2.1 ip.2.2.1 ip.2.2.2))
    .ok (maximaToUV
      ((anms_maxima.mergeSort (fun a b => decide (b.2.2 ≤ a.2.2))).take n))

/-- Squared distance between candidate coordinates (integers in the source). -/
def sqDist (u v uu vv : Nat) : ℤ := ((u : ℤ) - (uu : ℤ)) ^ 2 + ((v : ℤ) - (vv : ℤ)) ^ 2

/-- Neighbor ordering used to model the kd-tree queries: by distance to the
query point, ties broken by candidate index (scipy's query order is
deterministic; the tie-break choice only matters for exactly equidistant
neighbors). -/
def nbrLE (u v : Nat) (a b : Nat × Nat × Nat × ℝ) : Bool :=
  decide (sqDist u v a.2.1 a.2.2.1 < sqDist u v b.2.1 b.2.2.1 ∨
    (sqDist u v a.2.1 a.2.2.1 = sqDist u v b.2.1 b.2.2.1 ∧ a.1 ≤ b.1))

/-- The enumerated candidates sorted by distance to (u, v): element k-1 of
this list is the k-th nearest neighbor returned by tree.query(..., k=k)
(1-indexed ranks; rank 1 is the query point itself). -/
def kdtreeQuery (maxima : List (Nat × Nat × ℝ)) (u v : Nat) :
    List (Nat × Nat × Nat × ℝ) :=
  maxima.enum.mergeSort (nbrLE u v)

/-- The progressive search of `anms_kdtree` for one candidate: for
k = 2, ..., nm-1 in turn, look at the farthest member of the k nearest
neighbors (rank k); if it is significantly stronger, record the distance to
it and stop.  Returns none when no k in that range qualifies — note the
final rank nm (the overall farthest neighbor) is never examined, because
range(2, nm) stops at nm - 1. -/
noncomputable def kdtreeSearch (maxima : List (Nat × Nat × ℝ)) (c : ℝ)
    (u v : Nat) (h : ℝ) : Option ℝ :=
  let ranked := kdtreeQuery maxima u v
  (List.range' 2 (maxima.length - 2)).findSome? (fun k =>
    match ranked[k - 1]? with
    | some t =>
        if h < c * t.2.2.2 then
          some (Real.sqrt ((sqDist u v t.2.1 t.2.2.1 : ℤ) : ℝ))
        else none
    | none => none)

/-- Embedding of `anms_kdtree(H, n, c, edge, use_thresh)` (zipped=False):
trim an edge margin (H[edge:-edge, edge:-edge]), threshold the trimmed map
(H.min() raises on an empty trim), extract candidates, and build the kd-tree
over their coordinates: with no candidates, muv = np.array([]) is
1-dimensional and KDTree raises ValueError.  Otherwise run the progressive
nearest-neighbor search for each candidate (candidates whose search fails
contribute nothing), shift the recorded coordinates back by edge, sort by
recorded distance descending and return the first n as coordinate lists. -/
noncomputable def anms_kdtree (H : Img ℝ) (n : Nat) (c : ℝ) (edge : Nat)
    (use_thresh : Bool) : Except String (List Nat × List Nat) :=
  let H2 := H.trim edge
  match anmsThresh H2 use_thresh with
  | .error e => .error e
  | .ok thresh =>
    let maxima := get_maxima H2 thresh false
    if maxima.isEmpty then .error "ValueError: data must be 2 dimensions"
    else
      let anms_maxima := maxima.enum.filterMap (fun ip =>
        (kdtreeSearch maxima c ip.2.1 ip.2.2.1 ip.2.2.2).map (fun d =>
          (ip.2.1 + edge, ip.2.2.1 + edge, d)))
      .ok (maximaToUV
        ((anms_maxima.mergeSort (fun a b => decide (b.2.2 ≤ a.2.2))).take n))

/-- A concrete 2×2 test image [[1, 2], [3, 4]]. -/
def img22 : Img ℤ :=
  { rows := 2, cols := 2,
    data := fun k j =>
      if k = 0 then (if j = 0 then 1 else 2) else (if j = 0 then 3 else 4) }

/-- Claim C9: convolve2d raises the invalid-parameter ValueError
("Invalide boundary mode: ...") exactly when the boundary mode is not one of
the five recognized strings — a recognized mode either succeeds or hits the
distinct r = 0 broadcast error, never this one — and get_gaussian_kernel
fails exactly when the requested side length is even; in the Except
embedding the error is the immediate result. -/
theorem convolve2d_gaussian_error_iff {α : Type} [CommRing α] (img kern : Img α)
    (mode : String) (fill : α) (n : Nat) (sigma : ℚ) :
    ((convolve2d img kern mode fill =
        .error ("Invalide boundary mode: " ++ mode)) ↔
      ¬ mode ∈ ["valid", "fill", "extend", "mirror", "wrap"]) ∧
    ((get_gaussian_kernel n sigma).isOk = true ↔ n % 2 = 1) := by
  constructor
  · constructor
    · intro herr hmem
      fin_cases hmem
      · simp [convolve2d] at herr
      · rcases convolve2d_pad_cases img kern fill "fill" (by decide) with
          ⟨out, hout⟩ | hbe
        · rw [hout] at herr
          exact Except.noConfusion herr
        · rw [hbe] at herr
          exact absurd (Except.error.inj herr) (by decide)
      · rcases convolve2d_pad_cases img kern fill "extend" (by decide) with
          ⟨out, hout⟩ | hbe
        · rw [hout] at herr
          exact Except.noConfusion herr
        · rw [hbe] at herr
          exact absurd (Except.error.inj herr) (by decide)
      · rcases convolve2d_pad_cases img kern fill "mirror" (by decide) with
          ⟨out, hout⟩ | hbe
        · rw [hout] at herr
          exact Except.noConfusion herr
        · rw [hbe] at herr
          exact absurd (Except.error.inj herr) (by decide)
      · rcases convolve2d_pad_cases img kern fill "wrap" (by decide) with
          ⟨out, hout⟩ | hbe
        · rw [hout] at herr
          exact Except.noConfusion herr
        · rw [hbe] at herr
          exact absurd (Except.error.inj herr) (by decide)
    · intro hnot
      simp only [List.mem_cons, List.not_mem_nil, or_false] at hnot
      push_neg at hnot
      obtain ⟨h1, h2, h3, h4, h5⟩ := hnot
      simp only [convolve2d]
      rw [if_neg h1, if_neg h2, if_neg h3, if_neg h4, if_neg h5]
  · unfold get_gaussian_kernel
    split_ifs with h1 <;> simp [Except.isOk, Except.toBool] <;> omega

/-- Claim C3 (counterexample): on the 2×2 image [[1, 2], [3, 4]] with r = 1
and offset t = 0, the mirror-mode padding cell one row above the top border
(extended row 0, interior column x = 1) holds image row 0 (the border row,
value 1), not image row t + 1 = 1 (value 3) as the claim requires: the
border row is duplicated into the padding. -/
theorem mirror_pad_duplicates_border :
    mirrorInput img22 1 0 1 = 1 ∧ img22.data 1 0 = 3 ∧
      mirrorInput img22 1 0 1 ≠ img22.data 1 0 := by
  refine ⟨by decide, by decide, by decide⟩

/-- Claim C3 (amended): in mirror mode, for an image with at least r rows and
columns, the synthesized padding row at distance t + 1 outside the top border
(extended row r - 1 - t, for t in 0..r-1) equals image row t — the reflection
includes the border sample, duplicating it at distance 1 (scipy-style
"symmetric" reflection, not mirror-without-edge). -/
theorem mirror_pad_top_row {α : Type} [CommRing α] (img : Img α) (r t x : Nat)
    (ht : t < r) (hrm : r ≤ img.rows) (_hrn : r ≤ img.cols)
    (hx1 : r ≤ x) (hx2 : x < img.cols + r) :
    mirrorInput img r (r - 1 - t) x = img.data t (x - r) := by
  unfold mirrorInput interiorSet setBlock
  simp only [if_neg (show ¬ r = 0 from by omega)]
  split_ifs <;> try omega
  congr 1
  omega

/-- Claim C3 (amended, witness): the padding row adjacent to the top border of
the 2×2 test image equals image row 0. -/
theorem mirror_pad_top_row_witness :
    (0 : Nat) < 1 ∧ mirrorInput img22 1 0 1 = img22.data 0 (1 - 1) :=
  ⟨by decide, mirror_pad_top_row img22 1 0 1 (by decide) (by decide) (by decide)
    (by decide) (by decide)⟩

theorem fillInput_interior {α : Type} (img : Img α) (r : Nat) (fl : α) (y x : Nat)
    (hr : 1 ≤ r) (hy1 : r ≤ y) (hy2 : y < img.rows + r) (hx1 : r ≤ x)
    (hx2 : x < img.cols + r) :
    fillInput img r fl y x = img.data (y - r) (x - r) := by
  unfold fillInput interiorSet setBlock
  simp only [if_neg (show ¬ r = 0 from by omega)]
  rw [if_pos (by omega)]

theorem extendInput_interior {α : Type} [CommRing α] (img : Img α) (r y x : Nat)
    (hr : 1 ≤ r) (hy1 : r ≤ y) (hy2 : y < img.rows + r) (hx1 : r ≤ x)
    (hx2 : x < img.cols + r) :
    extendInput img r y x = img.data (y - r) (x - r) := by
  unfold extendInput interiorSet setBlock
  simp only [if_neg (show ¬ r = 0 from by omega)]
  split_ifs <;> first | rfl | omega

theorem mirrorInput_interior {α : Type} [CommRing α] (img : Img α) (r y x : Nat)
    (hr : 1 ≤ r) (hy1 : r ≤ y) (hy2 : y < img.rows + r) (hx1 : r ≤ x)
    (hx2 : x < img.cols + r) :
    mirrorInput img r y x = img.data (y - r) (x - r) := by
  unfold mirrorInput interiorSet setBlock
  simp only [if_neg (show ¬ r = 0 from by omega)]
  split_ifs <;> first | rfl | omega

theorem wrapInput_interior {α : Type} [CommRing α] (img : Img α) (r y x : Nat)
    (hr : 1 ≤ r) (hy1 : r ≤ y) (hy2 : y < img.rows + r) (hx1 : r ≤ x)
    (hx2 : x < img.cols + r) :
    wrapInput img r y x = img.data (y - r) (x - r) := by
  unfold wrapInput interiorSet setBlock
  simp only [if_neg (show ¬ r = 0 from by omega)]
  split_ifs <;> first | rfl | omega

/-- On interior cells the flipped-kernel correlation computed by `conv` equals
the true-convolution sum: reindexing by a = dv + r, b = du + r turns
sum of g[v-dv, u-du] * kern[dv+r, du+r] over dv, du in -r..r into the sum
below. -/
theorem conv_data_interior {α : Type} [CommRing α] (g kern : Img α) (r v u : Nat)
    (hk1 : kern.rows = 2 * r + 1) (hk2 : kern.cols = 2 * r + 1)
    (hv1 : r ≤ v) (hv2 : v < g.rows - r) (hu1 : r ≤ u) (hu2 : u < g.cols - r) :
    (conv g kern).data v u =
      ∑ a ∈ Finset.range (2 * r + 1), ∑ b ∈ Finset.range (2 * r + 1),
        g.data (v + r - a) (u + r - b) * kern.data a b := by
  unfold conv
  simp only
  have hrad : kern.rows / 2 = r := by omega
  rw [hrad, if_pos ⟨hv1, hv2, hu1, hu2⟩, hk1, hk2]
  conv_rhs => rw [← Finset.sum_range_reflect]
  apply Finset.sum_congr rfl
  intro i hi
  conv_rhs => rw [← Finset.sum_range_reflect]
  apply Finset.sum_congr rfl
  intro j hj
  simp only [Finset.mem_range] at hi hj
  have e1 : v + r - (2 * r + 1 - 1 - i) = v - r + i := by omega
  have e2 : u + r - (2 * r + 1 - 1 - j) = u - r + j := by omega
  rw [e1, e2]

/-- For any padding function that agrees with the image on the interior band,
the cropped convolution has the image's shape and computes the
true-convolution sum on interior cells. -/
theorem cropBack_conv_interior {α : Type} [CommRing α] (img kern : Img α) (r : Nat)
    (pad : Nat → Nat → α)
    (hpad : ∀ y x, r ≤ y → y < img.rows + r → r ≤ x → x < img.cols + r →
      pad y x = img.data (y - r) (x - r))
    (hk1 : kern.rows = 2 * r + 1) (hk2 : kern.cols = 2 * r + 1) (hr : 1 ≤ r) :
    (cropBack (conv (extended img r pad) kern) r).rows = img.rows ∧
    (cropBack (conv (extended img r pad) kern) r).cols = img.cols ∧
    ∀ v u, r ≤ v → v + r < img.rows → r ≤ u → u + r < img.cols →
      (cropBack (conv (extended img r pad) kern) r).data v u =
        ∑ a ∈ Finset.range (2 * r + 1), ∑ b ∈ Finset.range (2 * r + 1),
          img.data (v + r - a) (u + r - b) * kern.data a b := by
  refine ⟨?_, ?_, ?_⟩
  · show (if r = 0 then 0 else img.rows + 2 * r - 2 * r) = img.rows
    rw [if_neg (show ¬ r = 0 from by omega)]
    omega
  · show (if r = 0 then 0 else img.cols + 2 * r - 2 * r) = img.cols
    rw [if_neg (show ¬ r = 0 from by omega)]
    omega
  intro v u hv1 hv2 hu1 hu2
  have hstep : (cropBack (conv (extended img r pad) kern) r).data v u =
      (conv (extended img r pad) kern).data (v + r) (u + r) := rfl
  rw [hstep, conv_data_interior (extended img r pad) kern r (v + r) (u + r) hk1 hk2
    (by omega) (by simp [extended]; omega) (by omega) (by simp [extended]; omega)]
  apply Finset.sum_congr rfl
  intro a ha
  apply Finset.sum_congr rfl
  intro b hb
  simp only [Finset.mem_range] at ha hb
  have hext : (extended img r pad).data (v + r + r - a) (u + r + r - b) =
      pad (v + r + r - a) (u + r + r - b) := rfl
  rw [hext, hpad (v + r + r - a) (u + r + r - b) (by omega) (by omega) (by omega)
    (by omega)]
  have e1 : v + r + r - a - r = v + r - a := by omega
  have e2 : u + r + r - b - r = u + r - b := by omega
  rw [e1, e2]

/-- A concrete 1×1 kernel [[3]] (odd side 1, radius r = 0). -/
def one1 : Img ℤ := { rows := 1, cols := 1, data := fun _ _ => 3 }

/-- Claim C1 (counterexample): with the side-1 kernel [[3]] (odd side 2r+1
at r = 0) and the recognized padding mode "fill", convolve2d on the 2×2
image raises the broadcast ValueError — the interior assignment
conv_input[0:-0, 0:-0] = img targets the empty slice — so no output of the
image's shape is produced at all, against the claim's universal odd-kernel
statement. -/
theorem convolve2d_side1_pad_raises :
    convolve2d img22 one1 "fill" (0 : ℤ) =
      .error "ValueError: could not broadcast input array" ∧
    ∀ out : Img ℤ, convolve2d img22 one1 "fill" (0 : ℤ) ≠ .ok out := by
  have hstep : convolve2d img22 one1 "fill" (0 : ℤ) =
      .error "ValueError: could not broadcast input array" := rfl
  refine ⟨hstep, ?_⟩
  intro out h
  rw [hstep] at h
  exact Except.noConfusion h

/-- Claim C1 (amended): for a square kernel of odd side 2r+1 and any
recognized boundary mode, provided the mode is "valid" or the kernel side
is at least 3 (r ≥ 1), convolve2d succeeds, the output has the image's
shape, and every interior cell holds the true-convolution sum
out[v, u] = sum over dv, du in -r..r of image[v-dv, u-du] * kernel[dv+r, du+r]
(written below with a = dv + r, b = du + r running over 0..2r).  For a
side-1 kernel the four padding modes instead raise a broadcast ValueError
(or, on a 1×1 image, return the empty crop); see the counterexample. -/
theorem convolve2d_true_convolution {α : Type} [CommRing α] (img kern : Img α)
    (mode : String) (fill : α) (r : Nat)
    (hk1 : kern.rows = 2 * r + 1) (hk2 : kern.cols = 2 * r + 1)
    (hmode : mode ∈ ["valid", "fill", "extend", "mirror", "wrap"])
    (hrm : r ≤ img.rows) (hrn : r ≤ img.cols)
    (hrv : mode = "valid" ∨ 1 ≤ r) :
    ∃ out : Img α, convolve2d img kern mode fill = .ok out ∧
      out.rows = img.rows ∧ out.cols = img.cols ∧
      ∀ v u, r ≤ v → v + r < img.rows → r ≤ u → u + r < img.cols →
        out.data v u =
          ∑ a ∈ Finset.range (2 * r + 1), ∑ b ∈ Finset.range (2 * r + 1),
            img.data (v + r - a) (u + r - b) * kern.data a b := by
  have hrad : kern.rows / 2 = r := by omega
  fin_cases hmode
  · refine ⟨conv img kern, by simp [convolve2d], rfl, rfl, ?_⟩
    intro v u hv1 hv2 hu1 hu2
    exact conv_data_interior img kern r v u hk1 hk2 hv1 (by omega) hu1 (by omega)
  · have hr1 : 1 ≤ r := by
      rcases hrv with hvm | hr1
      · exact absurd hvm (by decide)
      · exact hr1
    obtain ⟨h1, h2, h3⟩ := cropBack_conv_interior img kern r (fillInput img r fill)
      (fun y x hy1 hy2 hx1 hx2 =>
        fillInput_interior img r fill y x hr1 hy1 hy2 hx1 hx2)
      hk1 hk2 hr1
    exact ⟨_, (convolve2d_pad_mode img kern fill r hrad hr1).1, h1, h2, h3⟩
  · have hr1 : 1 ≤ r := by
      rcases hrv with hvm | hr1
      · exact absurd hvm (by decide)
      · exact hr1
    obtain ⟨h1, h2, h3⟩ := cropBack_conv_interior img kern r (extendInput img r)
      (fun y x hy1 hy2 hx1 hx2 => extendInput_interior img r y x hr1 hy1 hy2 hx1 hx2)
      hk1 hk2 hr1
    exact ⟨_, (convolve2d_pad_mode img kern fill r hrad hr1).2.1, h1, h2, h3⟩
  · have hr1 : 1 ≤ r := by
      rcases hrv with hvm | hr1
      · exact absurd hvm (by decide)
      · exact hr1
    obtain ⟨h1, h2, h3⟩ := cropBack_conv_interior img kern r (mirrorInput img r)
      (fun y x hy1 hy2 hx1 hx2 => mirrorInput_interior img r y x hr1 hy1 hy2 hx1 hx2)
      hk1 hk2 hr1
    exact ⟨_, (convolve2d_pad_mode img kern fill r hrad hr1).2.2.1, h1, h2, h3⟩
  · have hr1 : 1 ≤ r := by
      rcases hrv with hvm | hr1
      · exact absurd hvm (by decide)
      · exact hr1
    obtain ⟨h1, h2, h3⟩ := cropBack_conv_interior img kern r (wrapInput img r)
      (fun y x hy1 hy2 hx1 hx2 => wrapInput_interior img r y x hr1 hy1 hy2 hx1 hx2)
      hk1 hk2 hr1
    exact ⟨_, (convolve2d_pad_mode img kern fill r hrad hr1).2.2.2, h1, h2, h3⟩

/-- A concrete 3×3 ramp image. -/
def ramp3 : Img ℤ := { rows := 3, cols := 3, data := fun k j => (k : ℤ) * 3 + (j : ℤ) }

/-- A concrete all-ones 3×3 kernel. -/
def ones3 : Img ℤ := { rows := 3, cols := 3, data := fun _ _ => 1 }

/-- Claim C1 (witness): the theorem applied to the 3×3 ramp image, the
all-ones 3×3 kernel and mode "valid". -/
theorem convolve2d_true_convolution_witness :
    ∃ out : Img ℤ, convolve2d ramp3 ones3 "valid" 0 = .ok out ∧
      out.rows = ramp3.rows ∧ out.cols = ramp3.cols ∧
      ∀ v u, 1 ≤ v → v + 1 < ramp3.rows → 1 ≤ u → u + 1 < ramp3.cols →
        out.data v u =
          ∑ a ∈ Finset.range (2 * 1 + 1), ∑ b ∈ Finset.range (2 * 1 + 1),
            ramp3.data (v + 1 - a) (u + 1 - b) * ones3.data a b :=
  convolve2d_true_convolution ramp3 ones3 "valid" 0 1 rfl rfl (by decide)
    (by decide) (by decide) (Or.inl rfl)

theorem conv_impulse_data {α : Type} [CommRing α] (g kern : Img α) (r v u : Nat)
    (hk1 : kern.rows = 2 * r + 1) (hk2 : kern.cols = 2 * r + 1)
    (hdata : ∀ i, i < 2 * r + 1 → ∀ j, j < 2 * r + 1 →
      kern.data i j = if i = r ∧ j = r then 1 else 0)
    (hv1 : r ≤ v) (hv2 : v < g.rows - r) (hu1 : r ≤ u) (hu2 : u < g.cols - r) :
    (conv g kern).data v u = g.data v u := by
  rw [conv_data_interior g kern r v u hk1 hk2 hv1 hv2 hu1 hu2]
  rw [Finset.sum_eq_single r]
  · rw [Finset.sum_eq_single r]
    · rw [hdata r (by omega) r (by omega)]
      simp
    · intro b hb hbr
      rw [hdata r (by omega) b (by simpa using hb)]
      simp [hbr]
    · intro habs
      exact absurd (Finset.mem_range.mpr (by omega)) habs
  · intro a ha har
    apply Finset.sum_eq_zero
    intro b hb
    rw [hdata a (by simpa using ha) b (by simpa using hb)]
    simp [har]
  · intro habs
    exact absurd (Finset.mem_range.mpr (by omega)) habs

theorem conv_data_outside {α : Type} [CommRing α] (g kern : Img α) (v u : Nat)
    (h : ¬(kern.rows / 2 ≤ v ∧ v < g.rows - kern.rows / 2 ∧
      kern.rows / 2 ≤ u ∧ u < g.cols - kern.rows / 2)) :
    (conv g kern).data v u = 0 := by
  unfold conv
  simp only
  rw [if_neg h]

theorem toLists_eq {α : Type} (a b : Img α) (h1 : a.rows = b.rows)
    (h2 : a.cols = b.cols)
    (h3 : ∀ k j, k < a.rows → j < a.cols → a.data k j = b.data k j) :
    a.toLists = b.toLists := by
  unfold Img.toLists
  rw [← h1, ← h2]
  apply List.map_congr_left
  intro k hk
  apply List.map_congr_left
  intro j hj
  exact h3 k j (List.mem_range.mp hk) (List.mem_range.mp hj)

theorem cropBack_conv_impulse {α : Type} [CommRing α] (img kern : Img α) (r : Nat)
    (pad : Nat → Nat → α)
    (hpad : ∀ y x, r ≤ y → y < img.rows + r → r ≤ x → x < img.cols + r →
      pad y x = img.data (y - r) (x - r))
    (hk1 : kern.rows = 2 * r + 1) (hk2 : kern.cols = 2 * r + 1)
    (hdata : ∀ i, i < 2 * r + 1 → ∀ j, j < 2 * r + 1 →
      kern.data i j = if i = r ∧ j = r then 1 else 0) (hr : 1 ≤ r) :
    (cropBack (conv (extended img r pad) kern) r).toLists = img.toLists := by
  have hrows : (cropBack (conv (extended img r pad) kern) r).rows = img.rows := by
    show (if r = 0 then 0 else img.rows + 2 * r - 2 * r) = img.rows
    rw [if_neg (show ¬ r = 0 from by omega)]
    omega
  have hcols : (cropBack (conv (extended img r pad) kern) r).cols = img.cols := by
    show (if r = 0 then 0 else img.cols + 2 * r - 2 * r) = img.cols
    rw [if_neg (show ¬ r = 0 from by omega)]
    omega
  apply toLists_eq
  · exact hrows
  · exact hcols
  · intro k j hk hj
    have hk2' : k < img.rows := hrows ▸ hk
    have hj2' : j < img.cols := hcols ▸ hj
    have hstep : (cropBack (conv (extended img r pad) kern) r).data k j =
        (conv (extended img r pad) kern).data (k + r) (j + r) := rfl
    rw [hstep, conv_impulse_data (extended img r pad) kern r (k + r) (j + r) hk1 hk2
      hdata (by omega) (by simp [extended]; omega) (by omega)
      (by simp [extended]; omega)]
    have hext : (extended img r pad).data (k + r) (j + r) = pad (k + r) (j + r) := rfl
    rw [hext, hpad (k + r) (j + r) (by omega) (by omega) (by omega) (by omega)]
    simp

/-- A concrete 1×1 image [[5]]. -/
def img11 : Img ℤ := { rows := 1, cols := 1, data := fun _ _ => 5 }

/-- A concrete 3×3 identity-impulse kernel. -/
def impulse3 : Img ℤ :=
  { rows := 3, cols := 3, data := fun i j => if i = 1 ∧ j = 1 then 1 else 0 }

/-- Claim C2 (counterexample): in mode "valid" with a 3×3 impulse kernel the
1×1 image [[5]] comes back as [[0]] — the border band of width r is zeroed,
so convolve2d does not return the original image for every supported mode. -/
theorem valid_impulse_not_identity :
    (convolve2d img11 impulse3 "valid" (0 : ℤ) = .ok (conv img11 impulse3)) ∧
    (conv img11 impulse3).toLists = [[0]] ∧ img11.toLists = [[5]] ∧
    ∀ out : Img ℤ, convolve2d img11 impulse3 "valid" (0 : ℤ) = .ok out →
      out.toLists ≠ img11.toLists := by
  refine ⟨rfl, by decide, by decide, ?_⟩
  intro out h
  have h0 : convolve2d img11 impulse3 "valid" (0 : ℤ) =
      .ok (conv img11 impulse3) := rfl
  rw [h0] at h
  injection h with h
  rw [← h]
  decide

/-- Claim C2 (amended): with an identity-impulse kernel of odd side 2r+1
with r ≥ 1 and an image at least r wide/tall in each direction, convolve2d
returns the original image unchanged for the padding modes fill, extend,
mirror and wrap; for mode "valid" it preserves exactly the interior cells
and leaves the border band of width r at zero (for a side-1 impulse the
padding modes raise the r = 0 broadcast error instead of returning the
image). -/
theorem convolve2d_impulse {α : Type} [CommRing α] (img kern : Img α)
    (mode : String) (fill : α) (r : Nat)
    (hk1 : kern.rows = 2 * r + 1) (hk2 : kern.cols = 2 * r + 1)
    (hdata : ∀ i, i < 2 * r + 1 → ∀ j, j < 2 * r + 1 →
      kern.data i j = if i = r ∧ j = r then 1 else 0)
    (hrm : r ≤ img.rows) (hrn : r ≤ img.cols) :
    (1 ≤ r → mode ∈ ["fill", "extend", "mirror", "wrap"] →
      (convolve2d img kern mode fill).map Img.toLists = .ok img.toLists) ∧
    (∃ out, convolve2d img kern "valid" fill = .ok out ∧
      out.rows = img.rows ∧ out.cols = img.cols ∧
      ∀ v u, v < img.rows → u < img.cols →
        out.data v u =
          if r ≤ v ∧ v + r < img.rows ∧ r ≤ u ∧ u + r < img.cols
          then img.data v u else 0) := by
  have hrad : kern.rows / 2 = r := by omega
  constructor
  · intro hr1 hmode
    fin_cases hmode
    · rw [(convolve2d_pad_mode img kern fill r hrad hr1).1]
      exact congrArg Except.ok (cropBack_conv_impulse img kern r (fillInput img r fill)
        (fun y x hy1 hy2 hx1 hx2 =>
          fillInput_interior img r fill y x hr1 hy1 hy2 hx1 hx2)
        hk1 hk2 hdata hr1)
    · rw [(convolve2d_pad_mode img kern fill r hrad hr1).2.1]
      exact congrArg Except.ok (cropBack_conv_impulse img kern r (extendInput img r)
        (fun y x hy1 hy2 hx1 hx2 => extendInput_interior img r y x hr1 hy1 hy2 hx1 hx2)
        hk1 hk2 hdata hr1)
    · rw [(convolve2d_pad_mode img kern fill r hrad hr1).2.2.1]
      exact congrArg Except.ok (cropBack_conv_impulse img kern r (mirrorInput img r)
        (fun y x hy1 hy2 hx1 hx2 => mirrorInput_interior img r y x hr1 hy1 hy2 hx1 hx2)
        hk1 hk2 hdata hr1)
    · rw [(convolve2d_pad_mode img kern fill r hrad hr1).2.2.2]
      exact congrArg Except.ok (cropBack_conv_impulse img kern r (wrapInput img r)
        (fun y x hy1 hy2 hx1 hx2 => wrapInput_interior img r y x hr1 hy1 hy2 hx1 hx2)
        hk1 hk2 hdata hr1)
  · refine ⟨conv img kern, by simp [convolve2d], rfl, rfl, ?_⟩
    intro v u hv hu
    by_cases hint : r ≤ v ∧ v + r < img.rows ∧ r ≤ u ∧ u + r < img.cols
    · rw [if_pos hint]
      exact conv_impulse_data img kern r v u hk1 hk2 hdata hint.1 (by omega)
        hint.2.2.1 (by omega)
    · rw [if_neg hint]
      exact conv_data_outside img kern v u (by omega)

/-- Claim C2 (amended, witness): the theorem applied to the 2×2 test image
with the 3×3 impulse kernel; the "fill" instance of the first conjunct and
the "valid" characterization both instantiate. -/
theorem convolve2d_impulse_witness :
    (((1 : Nat) ≤ 1 → ("fill" : String) ∈ ["fill", "extend", "mirror", "wrap"] →
      (convolve2d img22 impulse3 "fill" (7 : ℤ)).map Img.toLists =
        .ok img22.toLists) ∧
    (∃ out, convolve2d img22 impulse3 "valid" (7 : ℤ) = .ok out ∧
      out.rows = img22.rows ∧ out.cols = img22.cols ∧
      ∀ v u, v < img22.rows → u < img22.cols →
        out.data v u =
          if 1 ≤ v ∧ v + 1 < img22.rows ∧ 1 ≤ u ∧ u + 1 < img22.cols
          then img22.data v u else 0)) :=
  convolve2d_impulse img22 impulse3 "fill" 7 1 rfl rfl (by decide) (by decide)
    (by decide)

theorem strictMax8_iff {α : Type} [LinearOrder α] (im : Img α) (k j : Nat) :
    strictMax8 im k j = true ↔
      (im.data (k - 1) (j - 1) < im.data k j ∧
       im.data (k - 1) j < im.data k j ∧
       im.data (k - 1) (j + 1) < im.data k j ∧
       im.data (k + 1) (j - 1) < im.data k j ∧
       im.data (k + 1) j < im.data k j ∧
       im.data (k + 1) (j + 1) < im.data k j ∧
       im.data k (j - 1) < im.data k j ∧
       im.data k (j + 1) < im.data k j) := by
  simp [strictMax8]

theorem mem_get_maxima_entry {α : Type} [LinearOrder α] (im : Img α) (t : α)
    (k j : Nat) (b : Nat × Nat × α)
    (hb : b ∈ (if im.data k j < t then none
      else if strictMax8 im k j then some (j, k, im.data k j) else none)) :
    b = (j, k, im.data k j) := by
  split_ifs at hb with h1 h2
  · exact absurd hb (by simp)
  · exact (by simpa using hb : (j, k, im.data k j) = b).symm
  · exact absurd hb (by simp)

theorem mem_get_maxima {α : Type} [LinearOrder α] (im : Img α) (t : α) (s : Bool)
    (p : Nat × Nat × α) :
    p ∈ get_maxima im t s ↔
      (1 ≤ p.2.1 ∧ p.2.1 + 1 < im.rows ∧ 1 ≤ p.1 ∧ p.1 + 1 < im.cols ∧
       p.2.2 = im.data p.2.1 p.1 ∧ t ≤ im.data p.2.1 p.1 ∧
       strictMax8 im p.2.1 p.1 = true) := by
  obtain ⟨j0, k0, x0⟩ := p
  have hpts : (j0, k0, x0) ∈ (List.range' 1 (im.rows - 2)).flatMap (fun k =>
      (List.range' 1 (im.cols - 2)).filterMap (fun j =>
        if im.data k j < t then none
        else if strictMax8 im k j then some (j, k, im.data k j) else none)) ↔
      (1 ≤ k0 ∧ k0 + 1 < im.rows ∧ 1 ≤ j0 ∧ j0 + 1 < im.cols ∧
       x0 = im.data k0 j0 ∧ t ≤ im.data k0 j0 ∧ strictMax8 im k0 j0 = true) := by
    rw [List.mem_flatMap]
    constructor
    · rintro ⟨k, hk, hp⟩
      rw [List.mem_filterMap] at hp
      obtain ⟨j, hj, hmk⟩ := hp
      rw [List.mem_range'_1] at hk hj
      split_ifs at hmk with h1 h2
      · have heq : (j, k, im.data k j) = (j0, k0, x0) := Option.some.inj hmk
        have e1 : j = j0 := congrArg Prod.fst heq
        have e2 : k = k0 := congrArg (fun p : Nat × Nat × α => p.2.1) heq
        have e3 : im.data k j = x0 := congrArg (fun p : Nat × Nat × α => p.2.2) heq
        subst e1; subst e2
        exact ⟨hk.1, by omega, hj.1, by omega, e3.symm, not_lt.mp h1, h2⟩
    · rintro ⟨hk1, hk2, hj1, hj2, hx, ht, hs⟩
      refine ⟨k0, List.mem_range'_1.mpr ⟨hk1, by omega⟩, ?_⟩
      rw [List.mem_filterMap]
      refine ⟨j0, List.mem_range'_1.mpr ⟨hj1, by omega⟩, ?_⟩
      rw [if_neg (not_lt.mpr ht), if_pos hs, hx]
  cases s
  · simpa only [get_maxima, Bool.false_eq_true, if_false] using hpts
  · simp only [get_maxima, if_true]
    rw [List.mem_mergeSort]
    exact hpts

theorem get_maxima_rowmajor {α : Type} [LinearOrder α] (im : Img α) (t : α) :
    (get_maxima im t false).Pairwise
      (fun a b : Nat × Nat × α => a.2.1 < b.2.1 ∨ (a.2.1 = b.2.1 ∧ a.1 < b.1)) := by
  simp only [get_maxima, Bool.false_eq_true, if_false]
  rw [List.pairwise_flatMap]
  constructor
  · intro k _
    rw [List.pairwise_filterMap]
    refine (List.pairwise_lt_range' 1 (im.cols - 2)).imp ?_
    intro j1 j2 hlt b hb b' hb'
    have e1 := mem_get_maxima_entry im t k j1 b hb
    have e2 := mem_get_maxima_entry im t k j2 b' hb'
    subst e1; subst e2
    exact Or.inr ⟨rfl, hlt⟩
  · refine (List.pairwise_lt_range' 1 (im.rows - 2)).imp ?_
    intro k1 k2 hlt x hx y hy
    rw [List.mem_filterMap] at hx hy
    obtain ⟨j1, _, hj1⟩ := hx
    obtain ⟨j2, _, hj2⟩ := hy
    have e1 := mem_get_maxima_entry im t k1 j1 x (by rw [Option.mem_def]; exact hj1)
    have e2 := mem_get_maxima_entry im t k2 j2 y (by rw [Option.mem_def]; exact hj2)
    subst e1; subst e2
    exact Or.inl hlt

theorem get_maxima_sorted_desc {α : Type} [LinearOrder α] (im : Img α) (t : α) :
    (get_maxima im t true).Pairwise (fun a b : Nat × Nat × α => b.2.2 ≤ a.2.2) := by
  simp only [get_maxima, if_true]
  have hs := @List.sorted_mergeSort (Nat × Nat × α)
    (fun a b => decide (b.2.2 ≤ a.2.2))
    (fun a b c hab hbc => by
      simp only [decide_eq_true_eq] at *
      exact le_trans hbc hab)
    (fun a b => by
      simp only [Bool.or_eq_true, decide_eq_true_eq]
      exact le_total b.2.2 a.2.2)
    ((List.range' 1 (im.rows - 2)).flatMap (fun k =>
      (List.range' 1 (im.cols - 2)).filterMap (fun j =>
        if im.data k j < t then none
        else if strictMax8 im k j then some (j, k, im.data k j) else none)))
  exact hs.imp (fun h => by simpa using h)

theorem get_maxima_perm {α : Type} [LinearOrder α] (im : Img α) (t : α) :
    (get_maxima im t true).Perm (get_maxima im t false) := by
  simp only [get_maxima, if_true, Bool.false_eq_true, if_false]
  exact List.mergeSort_perm _ _

/-- Claim C6: get_maxima returns exactly the interior cells at or above the
threshold that strictly dominate their 8 neighbors, as (column, row, score)
tuples; with the sort flag the result is ordered by score descending (and is
a permutation of the unsorted result), otherwise it is in row-major scan
order. -/
theorem get_maxima_spec {α : Type} [LinearOrder α] (im : Img α) (t : α) (s : Bool) :
    (∀ p : Nat × Nat × α, p ∈ get_maxima im t s ↔
      (1 ≤ p.2.1 ∧ p.2.1 + 1 < im.rows ∧ 1 ≤ p.1 ∧ p.1 + 1 < im.cols ∧
       p.2.2 = im.data p.2.1 p.1 ∧ t ≤ im.data p.2.1 p.1 ∧
       (im.data (p.2.1 - 1) (p.1 - 1) < im.data p.2.1 p.1 ∧
        im.data (p.2.1 - 1) p.1 < im.data p.2.1 p.1 ∧
        im.data (p.2.1 - 1) (p.1 + 1) < im.data p.2.1 p.1 ∧
        im.data (p.2.1 + 1) (p.1 - 1) < im.data p.2.1 p.1 ∧
        im.data (p.2.1 + 1) p.1 < im.data p.2.1 p.1 ∧
        im.data (p.2.1 + 1) (p.1 + 1) < im.data p.2.1 p.1 ∧
        im.data p.2.1 (p.1 - 1) < im.data p.2.1 p.1 ∧
        im.data p.2.1 (p.1 + 1) < im.data p.2.1 p.1))) ∧
    (get_maxima im t true).Perm (get_maxima im t false) ∧
    (get_maxima im t true).Pairwise (fun a b : Nat × Nat × α => b.2.2 ≤ a.2.2) ∧
    (get_maxima im t false).Pairwise
      (fun a b : Nat × Nat × α => a.2.1 < b.2.1 ∨ (a.2.1 = b.2.1 ∧ a.1 < b.1)) := by
  refine ⟨?_, get_maxima_perm im t, get_maxima_sorted_desc im t,
    get_maxima_rowmajor im t⟩
  intro p
  rw [mem_get_maxima, strictMax8_iff]

/-- Claim C10: two distinct points returned by get_maxima are never
8-neighbors: they differ by at least 2 in the row coordinate or by at least
2 in the column coordinate. -/
theorem get_maxima_no_adjacent {α : Type} [LinearOrder α] (im : Img α) (t : α)
    (s : Bool) (p q : Nat × Nat × α)
    (hp : p ∈ get_maxima im t s) (hq : q ∈ get_maxima im t s) (hpq : p ≠ q) :
    p.2.1 + 2 ≤ q.2.1 ∨ q.2.1 + 2 ≤ p.2.1 ∨ p.1 + 2 ≤ q.1 ∨ q.1 + 2 ≤ p.1 := by
  rw [mem_get_maxima] at hp hq
  obtain ⟨j1, k1, x1⟩ := p
  obtain ⟨j2, k2, x2⟩ := q
  simp only at hp hq ⊢
  by_contra hcon
  push_neg at hcon
  obtain ⟨hc1, hc2, hc3, hc4⟩ := hcon
  obtain ⟨hk1a, hk1b, hj1a, hj1b, hx1, ht1, hm1⟩ := hp
  obtain ⟨hk2a, hk2b, hj2a, hj2b, hx2, ht2, hm2⟩ := hq
  rw [strictMax8_iff] at hm1 hm2
  obtain ⟨n11, n12, n13, n14, n15, n16, n17, n18⟩ := hm1
  obtain ⟨m11, m12, m13, m14, m15, m16, m17, m18⟩ := hm2
  rcases (by omega :
      (k2 = k1 ∧ j2 = j1) ∨
      (k2 + 1 = k1 ∧ j2 + 1 = j1) ∨ (k2 + 1 = k1 ∧ j2 = j1) ∨
      (k2 + 1 = k1 ∧ j2 = j1 + 1) ∨ (k2 = k1 ∧ j2 + 1 = j1) ∨
      (k2 = k1 ∧ j2 = j1 + 1) ∨ (k2 = k1 + 1 ∧ j2 + 1 = j1) ∨
      (k2 = k1 + 1 ∧ j2 = j1) ∨ (k2 = k1 + 1 ∧ j2 = j1 + 1)) with
    hcase | hcase | hcase | hcase | hcase | hcase | hcase | hcase | hcase
  · obtain ⟨e1, e2⟩ := hcase
    subst e1; subst e2
    exact hpq (by rw [hx1, hx2])
  · obtain ⟨e1, e2⟩ := hcase
    subst e1; subst e2
    simp only [Nat.add_sub_cancel] at n11 m16
    exact absurd m16 (lt_asymm n11)
  · obtain ⟨e1, e2⟩ := hcase
    subst e1; subst e2
    simp only [Nat.add_sub_cancel] at n12 m15
    exact absurd m15 (lt_asymm n12)
  · obtain ⟨e1, e2⟩ := hcase
    subst e1; subst e2
    simp only [Nat.add_sub_cancel] at n13 m14
    exact absurd m14 (lt_asymm n13)
  · obtain ⟨e1, e2⟩ := hcase
    subst e1; subst e2
    simp only [Nat.add_sub_cancel] at n17 m18
    exact absurd m18 (lt_asymm n17)
  · obtain ⟨e1, e2⟩ := hcase
    subst e1; subst e2
    simp only [Nat.add_sub_cancel] at n18 m17
    exact absurd m17 (lt_asymm n18)
  · obtain ⟨e1, e2⟩ := hcase
    subst e1; subst e2
    simp only [Nat.add_sub_cancel] at n14 m13
    exact absurd m13 (lt_asymm n14)
  · obtain ⟨e1, e2⟩ := hcase
    subst e1; subst e2
    simp only [Nat.add_sub_cancel] at n15 m12
    exact absurd m12 (lt_asymm n15)
  · obtain ⟨e1, e2⟩ := hcase
    subst e1; subst e2
    simp only [Nat.add_sub_cancel] at n16 m11
    exact absurd m11 (lt_asymm n16)

/-- A concrete 5×5 test map with two separated peaks. -/
def peaks5 : Img ℤ :=
  { rows := 5, cols := 5, data := fun k j =>
      if k = 1 ∧ j = 1 then 9 else if k = 3 ∧ j = 3 then 8 else 0 }

/-- Claim C10 (witness): the two maxima of the two-peak test map are at least
2 apart in both coordinates. -/
theorem get_maxima_no_adjacent_witness :
    ((1, 1, (9 : ℤ)) ∈ get_maxima peaks5 1 false) ∧
    ((3, 3, (8 : ℤ)) ∈ get_maxima peaks5 1 false) ∧
    (((1, 1, (9 : ℤ)) : Nat × Nat × ℤ) ≠ (3, 3, (8 : ℤ))) ∧
    ((1 : Nat) + 2 ≤ 3 ∨ (3 : Nat) + 2 ≤ 1 ∨ (1 : Nat) + 2 ≤ 3 ∨ (3 : Nat) + 2 ≤ 1) :=
  ⟨by decide, by decide, by decide,
    get_maxima_no_adjacent peaks5 1 false (1, 1, 9) (3, 3, 8)
      (by decide) (by decide) (by decide)⟩

/-- Claim C5 (counterexample): at sigma = 1/2 the smallest odd integer at or
above 5*sigma = 5/2 is 3, but the code's size expression evaluates to the
non-integer 5/2 (int(2.5) + (1 - 0.5)), and gaussian fails (the non-integral
shape reaches np.empty) instead of building a 3×3 kernel. -/
theorem gaussian_side_fractional :
    gaussianSide (1 / 2) = 5 / 2 ∧ gaussianSide (1 / 2) ≠ 3 ∧
    (Odd (3 : ℤ) ∧ 5 * (1 / 2 : ℚ) ≤ ((3 : ℤ) : ℚ) ∧
      ∀ M : ℤ, Odd M → 5 * (1 / 2 : ℚ) ≤ (M : ℚ) → 3 ≤ M) ∧
    ∃ msg, gaussian (1 / 2) = .error msg := by
  have hside : gaussianSide (1 / 2) = 5 / 2 := by
    unfold gaussianSide pyInt pyMod
    norm_num
  refine ⟨hside, by rw [hside]; norm_num, ⟨by decide, by norm_num, ?_⟩, ?_⟩
  · intro M _ h
    have h2 : (2 : ℚ) < (M : ℚ) := by linarith
    have h3 : (2 : ℤ) < M := by exact_mod_cast h2
    omega
  · refine ⟨"TypeError: kernel shape is not an integer", ?_⟩
    simp only [gaussian]
    rw [hside, if_neg]
    norm_num

/-- Claim C5 (amended): for every positive integer sigma, the kernel side
n = int(5*sigma) + (1 - sigma % 2) is the smallest odd integer at or above
5*sigma, and gaussian builds the n×n kernel whose cell (row k, col j) is
exp(-((j-mean)^2+(k-mean)^2)/(2 sigma^2)) with mean = n // 2, divided by the
positive total so that the kernel sums to 1.  (For non-integer sigma the side
expression need not be an integer and the construction fails; see the
counterexample.) -/
theorem gaussian_spec (σ : Nat) (hσ : 1 ≤ σ) :
    ∃ n : Nat, gaussianSide (σ : ℚ) = (n : ℚ) ∧ n % 2 = 1 ∧ 5 * σ ≤ n ∧
      (∀ m : Nat, m % 2 = 1 → 5 * σ ≤ m → n ≤ m) ∧
      gaussian (σ : ℚ) = get_gaussian_kernel n (σ : ℚ) ∧
      ∃ K : Img ℝ, get_gaussian_kernel n (σ : ℚ) = .ok K ∧
        K.rows = n ∧ K.cols = n ∧ 0 < gTotal n (σ : ℚ) ∧
        (∀ k j, K.data k j =
          Real.exp (-(((j : ℝ) - ((n / 2 : Nat) : ℝ)) ^ 2 +
              ((k : ℝ) - ((n / 2 : Nat) : ℝ)) ^ 2) /
            (2 * (((σ : ℚ) : ℝ)) ^ 2)) / gTotal n (σ : ℚ)) ∧
        (∑ k ∈ Finset.range n, ∑ j ∈ Finset.range n, K.data k j) = 1 := by
  have hfloor2 : ⌊(σ : ℚ) / 2⌋ = ((σ / 2 : Nat) : ℤ) := by
    rw [Int.floor_eq_iff]
    rw [Int.cast_natCast]
    constructor
    · rw [le_div_iff₀ (by norm_num)]
      exact_mod_cast (by omega : (σ / 2 : Nat) * 2 ≤ σ)
    · rw [div_lt_iff₀ (by norm_num)]
      exact_mod_cast (by omega : σ < ((σ / 2 : Nat) + 1) * 2)
  have hfloor2q : ((⌊(σ : ℚ) / 2⌋ : ℤ) : ℚ) = ((σ / 2 : Nat) : ℚ) := by
    rw [hfloor2, Int.cast_natCast]
  have hfloor5 : ((pyInt (5 * (σ : ℚ)) : ℤ) : ℚ) = ((5 * σ : Nat) : ℚ) := by
    unfold pyInt
    rw [if_pos (by positivity)]
    have h5 : (5 * (σ : ℚ)) = ((5 * σ : Nat) : ℚ) := by push_cast; ring
    rw [h5, Int.floor_natCast, Int.cast_natCast]
  have hside : gaussianSide (σ : ℚ) = ((5 * σ + 1 - σ % 2 : Nat) : ℚ) := by
    unfold gaussianSide pyMod
    rw [hfloor5, hfloor2q]
    have hmod : σ % 2 + 2 * (σ / 2) = σ := by omega
    have hle : σ % 2 ≤ 5 * σ + 1 := by omega
    rw [Nat.cast_sub hle]
    have hq : ((σ % 2 : Nat) : ℚ) + 2 * ((σ / 2 : Nat) : ℚ) = (σ : ℚ) := by
      have h := congrArg (fun x : Nat => (x : ℚ)) hmod
      push_cast at h
      linarith
    push_cast
    linarith
  have hodd : ¬ ((5 * σ + 1 - σ % 2) % 2 = 0) := by omega
  have hnpos : 0 < 5 * σ + 1 - σ % 2 := by omega
  have hpos : 0 < gTotal (5 * σ + 1 - σ % 2) (σ : ℚ) := by
    simp only [gTotal]
    apply Finset.sum_pos
    · intro k _
      apply Finset.sum_pos
      · intro j _
        exact Real.exp_pos _
      · exact Finset.nonempty_range_iff.mpr (by omega)
    · exact Finset.nonempty_range_iff.mpr (by omega)
  refine ⟨5 * σ + 1 - σ % 2, hside, by omega, by omega,
    by intro m hm1 hm2; omega, ?_, ?_⟩
  · simp only [gaussian]
    rw [hside, if_pos ⟨by simp, by positivity⟩]
    rw [Int.floor_natCast]
    simp
  · refine ⟨⟨5 * σ + 1 - σ % 2, 5 * σ + 1 - σ % 2,
        fun k j => gRaw (5 * σ + 1 - σ % 2) (σ : ℚ) k j /
          gTotal (5 * σ + 1 - σ % 2) (σ : ℚ)⟩,
      ?_, rfl, rfl, hpos, fun k j => rfl, ?_⟩
    · simp only [get_gaussian_kernel]
      rw [if_neg hodd]
    · show ∑ k ∈ Finset.range (5 * σ + 1 - σ % 2),
        ∑ j ∈ Finset.range (5 * σ + 1 - σ % 2),
          gRaw (5 * σ + 1 - σ % 2) (σ : ℚ) k j /
            gTotal (5 * σ + 1 - σ % 2) (σ : ℚ) = 1
      simp only [← Finset.sum_div]
      exact div_self (ne_of_gt hpos)

/-- Claim C5 (amended, witness): the theorem applied at sigma = 2, where the
side length is 11 = int(10) + 1. -/
theorem gaussian_spec_witness :
    (1 : Nat) ≤ 2 ∧
    ∃ n : Nat, gaussianSide ((2 : Nat) : ℚ) = (n : ℚ) ∧ n % 2 = 1 ∧ 5 * 2 ≤ n ∧
      (∀ m : Nat, m % 2 = 1 → 5 * 2 ≤ m → n ≤ m) ∧
      gaussian ((2 : Nat) : ℚ) = get_gaussian_kernel n ((2 : Nat) : ℚ) ∧
      ∃ K : Img ℝ, get_gaussian_kernel n ((2 : Nat) : ℚ) = .ok K ∧
        K.rows = n ∧ K.cols = n ∧ 0 < gTotal n ((2 : Nat) : ℚ) ∧
        (∀ k j, K.data k j =
          Real.exp (-(((j : ℝ) - ((n / 2 : Nat) : ℝ)) ^ 2 +
              ((k : ℝ) - ((n / 2 : Nat) : ℝ)) ^ 2) /
            (2 * ((((2 : Nat) : ℚ)) : ℝ) ^ 2)) / gTotal n ((2 : Nat) : ℚ)) ∧
        (∑ k ∈ Finset.range n, ∑ j ∈ Finset.range n, K.data k j) = 1 :=
  ⟨by decide, gaussian_spec 2 (by decide)⟩

theorem strictMax8_map {α β : Type} [LinearOrder α] [LinearOrder β] (f : α → β)
    (hf : StrictMono f) (im : Img α) (k j : Nat) :
    strictMax8 (im.map f) k j = strictMax8 im k j := by
  unfold strictMax8
  simp only [Img.map]
  rw [decide_eq_decide]
  simp only [hf.lt_iff_lt]

theorem get_maxima_map {α β : Type} [LinearOrder α] [LinearOrder β] (f : α → β)
    (hf : StrictMono f) (im : Img α) (t : α) :
    get_maxima (im.map f) (f t) false =
      (get_maxima im t false).map (fun p => (p.1, p.2.1, f p.2.2)) := by
  simp only [get_maxima, Bool.false_eq_true, if_false]
  rw [List.map_flatMap]
  apply congrArg
  funext k
  rw [List.map_filterMap]
  rw [show (im.map f).cols = im.cols from rfl]
  congr 1
  funext j
  have hd : (im.map f).data k j = f (im.data k j) := rfl
  by_cases h1 : im.data k j < t
  · rw [if_pos h1, if_pos (by rw [hd]; exact hf h1)]
    rfl
  · rw [if_neg h1, if_neg (by rw [hd]; exact fun hc => h1 (hf.lt_iff_lt.mp hc))]
    rw [strictMax8_map f hf]
    by_cases h2 : strictMax8 im k j
    · rw [if_pos h2, if_pos h2]
      rfl
    · rw [if_neg h2, if_neg h2]
      rfl

theorem foldl_min_map {α β : Type} [LinearOrder α] [LinearOrder β] (f : α → β)
    (hf : Monotone f) (l : List α) :
    ∀ a : α, (l.map f).foldl min (f a) = f (l.foldl min a) := by
  induction l with
  | nil => intro a; rfl
  | cons x xs ih =>
    intro a
    simp only [List.map_cons, List.foldl_cons]
    rw [← Monotone.map_min hf]
    exact ih (min a x)

theorem minVal_map {α β : Type} [LinearOrder α] [LinearOrder β] (f : α → β)
    (hf : Monotone f) (im : Img α) : (im.map f).minVal = im.minVal.map f := by
  unfold Img.minVal
  have hflat : (im.map f).toFlat = im.toFlat.map f := by
    unfold Img.toFlat
    rw [List.map_flatMap]
    apply congrArg
    funext k
    rw [List.map_map]
    rfl
  rw [hflat]
  cases htf : im.toFlat with
  | nil => rfl
  | cons x xs =>
    show ((x :: xs).map f).min? = ((x :: xs).min?).map f
    rw [List.map_cons]
    show some ((xs.map f).foldl min (f x)) = (some (xs.foldl min x)).map f
    rw [foldl_min_map f hf xs x]
    rfl

theorem get_maxima_of_rows_zero {α : Type} [LinearOrder α] (im : Img α) (t : α)
    (s : Bool) (h : im.rows = 0) : get_maxima im t s = [] := by
  unfold get_maxima
  rw [h]
  cases s <;> simp

theorem anms_ok_of_thresh (H : Img ℝ) (n : Nat) (c : ℝ) (ut : Bool) (thresh : ℝ)
    (hth : anmsThresh H ut = .ok thresh) :
    anms H n c ut = .ok (maximaToUV
      ((((get_maxima H thresh false).enum.map
        (fun ip => (ip.2.1, ip.2.2.1,
          anmsRmin (get_maxima H thresh false) c
            (((max H.rows H.cols : Nat) : ℝ) ^ 2)
            ip.1 ip.2.1 ip.2.2.1 ip.2.2.2))).mergeSort
        (fun a b => decide (b.2.2 ≤ a.2.2))).take n)) := by
  unfold anms
  rw [hth]

theorem anms_error_of_thresh (H : Img ℝ) (n : Nat) (c : ℝ) (ut : Bool)
    (e : String) (hth : anmsThresh H ut = .error e) : anms H n c ut = .error e := by
  unfold anms
  rw [hth]

theorem anms_kdtree_error_of_thresh (H : Img ℝ) (n : Nat) (c : ℝ) (edge : Nat)
    (ut : Bool) (e : String) (hth : anmsThresh (H.trim edge) ut = .error e) :
    anms_kdtree H n c edge ut = .error e := by
  simp only [anms_kdtree]
  rw [hth]

theorem anms_kdtree_unfold (H : Img ℝ) (n : Nat) (c : ℝ) (edge : Nat) (ut : Bool)
    (thresh : ℝ) (hth : anmsThresh (H.trim edge) ut = .ok thresh) :
    anms_kdtree H n c edge ut =
      (if (get_maxima (H.trim edge) thresh false).isEmpty then
        Except.error "ValueError: data must be 2 dimensions"
      else .ok (maximaToUV ((((get_maxima (H.trim edge) thresh false).enum.filterMap
        (fun ip => (kdtreeSearch (get_maxima (H.trim edge) thresh false) c
          ip.2.1 ip.2.2.1 ip.2.2.2).map (fun d =>
            (ip.2.1 + edge, ip.2.2.1 + edge, d)))).mergeSort
        (fun a b => decide (b.2.2 ≤ a.2.2))).take n))) := by
  simp only [anms_kdtree]
  rw [hth]

/-- A 3×3 response map with a single central peak. -/
def peak3 : Img ℤ :=
  { rows := 3, cols := 3, data := fun k j => if k = 1 ∧ j = 1 then 5 else 0 }

/-- The same map with real-valued scores, as fed to the ANMS stage. -/
noncomputable def peak3R : Img ℝ := peak3.map Int.cast

/-- Claim C4 (amended): with edge = 0 the index-accelerated ANMS always
raises instead of returning a point set: the trim H[0:-0, 0:-0] is the empty
slice, so with use_thresh = false the threshold reduction H.min() raises on
the zero-size array, and with use_thresh = true no candidates are extracted
and KDTree(np.array([])) rejects the 1-dimensional empty data; the two ANMS
variants therefore never agree whenever the brute-force variant returns a
point set. -/
theorem anms_kdtree_edge_zero (H : Img ℝ) (n : Nat) (c : ℝ) (ut : Bool) :
    ∃ e : String, anms_kdtree H n c 0 ut = .error e := by
  have h0 : (H.trim 0).rows = 0 := by simp [Img.trim]
  have hflat : (H.trim 0).toFlat = [] := by
    unfold Img.toFlat
    rw [h0]
    rfl
  cases ut
  · have hth : anmsThresh (H.trim 0) false =
        .error "ValueError: zero-size array to reduction operation minimum" := by
      have h1 : anmsThresh (H.trim 0) false = npMin (H.trim 0) := rfl
      rw [h1]
      unfold npMin Img.minVal
      rw [hflat]
      rfl
    exact ⟨_, anms_kdtree_error_of_thresh H n c 0 false _ hth⟩
  · have hth : anmsThresh (H.trim 0) true =
        .ok ((H.trim 0).mean + (H.trim 0).std) := rfl
    refine ⟨"ValueError: data must be 2 dimensions", ?_⟩
    rw [anms_kdtree_unfold H n c 0 true ((H.trim 0).mean + (H.trim 0).std) hth,
      get_maxima_of_rows_zero (H.trim 0) ((H.trim 0).mean + (H.trim 0).std) false h0]
    rfl

/-- Claim C4 (counterexample): on the single-peak 3×3 map with the min
threshold policy (use_thresh false), c = 0.9 and n = 100, brute-force ANMS
returns the peak ([1], [1]) while the index-accelerated ANMS with edge = 0
raises (its trimmed map is empty and the H.min() reduction fails), so the
two variants do not return the same set of points. -/
theorem anms_vs_anms_kdtree_differ :
    anms peak3R 100 (9 / 10) false = .ok ([1], [1]) ∧
    anms_kdtree peak3R 100 (9 / 10) 0 false =
      .error "ValueError: zero-size array to reduction operation minimum" ∧
    anms peak3R 100 (9 / 10) false ≠ anms_kdtree peak3R 100 (9 / 10) 0 false := by
  have hmin : peak3R.minVal = some ((0 : ℤ) : ℝ) := by
    rw [show peak3R = peak3.map Int.cast from rfl,
      minVal_map Int.cast Int.cast_mono peak3,
      show peak3.minVal = some 0 from by decide]
    rfl
  have hth : anmsThresh peak3R false = .ok ((0 : ℤ) : ℝ) := by
    have h1 : anmsThresh peak3R false = npMin peak3R := rfl
    rw [h1]
    unfold npMin
    rw [hmin]
  have hmax : get_maxima peak3R ((0 : ℤ) : ℝ) false = [(1, 1, ((5 : ℤ) : ℝ))] := by
    rw [show peak3R = peak3.map Int.cast from rfl,
      get_maxima_map Int.cast Int.cast_strictMono peak3 0]
    rw [show get_maxima peak3 0 false = [(1, 1, (5 : ℤ))] from by decide]
    rfl
  have hanms : anms peak3R 100 (9 / 10) false = .ok ([1], [1]) := by
    rw [anms_ok_of_thresh peak3R 100 (9 / 10) false ((0 : ℤ) : ℝ) hth]
    rw [hmax]
    rw [show ([(1, 1, ((5 : ℤ) : ℝ))] : List (Nat × Nat × ℝ)).enum =
      [(0, 1, 1, ((5 : ℤ) : ℝ))] from rfl]
    simp only [List.map_cons, List.map_nil]
    rw [List.mergeSort_singleton]
    simp [maximaToUV]
  have hkd : anms_kdtree peak3R 100 (9 / 10) 0 false =
      .error "ValueError: zero-size array to reduction operation minimum" := by
    have hflat : (peak3R.trim 0).toFlat = [] := rfl
    have hthe : anmsThresh (peak3R.trim 0) false =
        .error "ValueError: zero-size array to reduction operation minimum" := by
      have h1 : anmsThresh (peak3R.trim 0) false = npMin (peak3R.trim 0) := rfl
      rw [h1]
      unfold npMin Img.minVal
      rw [hflat]
      rfl
    exact anms_kdtree_error_of_thresh peak3R 100 (9 / 10) 0 false _ hthe
  refine ⟨hanms, hkd, ?_⟩
  rw [hanms, hkd]
  simp

theorem anmsRmin_foldl_eq (c : ℝ) (i u v : Nat) (h : ℝ)
    (l : List (Nat × Nat × Nat × ℝ)) :
    ∀ a : ℝ,
      l.foldl (fun rmin kp =>
        if i ≠ kp.1 ∧ h < c * kp.2.2.2 ∧
            Real.sqrt (((u : ℝ) - (kp.2.1 : ℝ)) ^ 2 + ((v : ℝ) - (kp.2.2.1 : ℝ)) ^ 2) < rmin
          then Real.sqrt (((u : ℝ) - (kp.2.1 : ℝ)) ^ 2 + ((v : ℝ) - (kp.2.2.1 : ℝ)) ^ 2)
          else rmin) a =
      ((l.filter (fun kp => decide (i ≠ kp.1 ∧ h < c * kp.2.2.2))).map
        (fun kp => Real.sqrt (((u : ℝ) - (kp.2.1 : ℝ)) ^ 2 +
          ((v : ℝ) - (kp.2.2.1 : ℝ)) ^ 2))).foldl min a := by
  induction l with
  | nil => intro a; rfl
  | cons x xs ih =>
    intro a
    simp only [List.foldl_cons]
    by_cases hq : i ≠ x.1 ∧ h < c * x.2.2.2
    · rw [@List.filter_cons_of_pos _ (fun kp => decide (i ≠ kp.1 ∧ h < c * kp.2.2.2))
        x xs (decide_eq_true hq), List.map_cons, List.foldl_cons]
      by_cases hd : Real.sqrt (((u : ℝ) - (x.2.1 : ℝ)) ^ 2 +
          ((v : ℝ) - (x.2.2.1 : ℝ)) ^ 2) < a
      · rw [if_pos ⟨hq.1, hq.2, hd⟩, ih, min_eq_right hd.le]
      · rw [if_neg (fun hc => hd hc.2.2), ih, min_eq_left (not_lt.mp hd)]
    · rw [@List.filter_cons_of_neg _ (fun kp => decide (i ≠ kp.1 ∧ h < c * kp.2.2.2))
        x xs (by simpa using hq)]
      rw [if_neg (fun hc => hq ⟨hc.1, hc.2.1⟩), ih]

theorem anmsRmin_eq (maxima : List (Nat × Nat × ℝ)) (c rmax : ℝ) (i u v : Nat)
    (h : ℝ) :
    anmsRmin maxima c rmax i u v h =
      ((maxima.enum.filter (fun kp => decide (i ≠ kp.1 ∧ h < c * kp.2.2.2))).map
        (fun kp => Real.sqrt (((u : ℝ) - (kp.2.1 : ℝ)) ^ 2 +
          ((v : ℝ) - (kp.2.2.1 : ℝ)) ^ 2))).foldl min rmax :=
  anmsRmin_foldl_eq c i u v h maxima.enum rmax

theorem foldl_min_le {α : Type} [LinearOrder α] (l : List α) :
    ∀ a : α, l.foldl min a ≤ a ∧ ∀ d ∈ l, l.foldl min a ≤ d := by
  induction l with
  | nil => intro a; exact ⟨le_refl a, by simp⟩
  | cons x xs ih =>
    intro a
    simp only [List.foldl_cons]
    obtain ⟨h1, h2⟩ := ih (min a x)
    refine ⟨le_trans h1 (min_le_left _ _), ?_⟩
    intro d hd
    rcases List.mem_cons.mp hd with hmem | hmem
    · subst hmem; exact le_trans h1 (min_le_right _ _)
    · exact h2 d hmem

theorem foldl_min_mem_or {α : Type} [LinearOrder α] (l : List α) :
    ∀ a : α, l.foldl min a = a ∨ l.foldl min a ∈ l := by
  induction l with
  | nil => intro a; exact Or.inl rfl
  | cons x xs ih =>
    intro a
    simp only [List.foldl_cons]
    rcases ih (min a x) with hcase | hcase
    · rcases min_choice a x with h2 | h2
      · exact Or.inl (hcase.trans h2)
      · exact Or.inr (by rw [hcase, h2]; exact List.mem_cons_self x xs)
    · exact Or.inr (List.mem_cons_of_mem x hcase)

theorem get_maxima_dist_le (H : Img ℝ) (t : ℝ) (u v uu vv : Nat) (h hh : ℝ)
    (hp : ((u, v, h) : Nat × Nat × ℝ) ∈ get_maxima H t false)
    (hq : ((uu, vv, hh) : Nat × Nat × ℝ) ∈ get_maxima H t false) :
    Real.sqrt (((u : ℝ) - (uu : ℝ)) ^ 2 + ((v : ℝ) - (vv : ℝ)) ^ 2) ≤
      ((max H.rows H.cols : Nat) : ℝ) ^ 2 := by
  rw [mem_get_maxima] at hp hq
  simp only at hp hq
  obtain ⟨hv1, hv2, hu1, hu2, -, -, -⟩ := hp
  obtain ⟨hvv1, hvv2, huu1, huu2, -, -, -⟩ := hq
  have hMn : 3 ≤ max H.rows H.cols := by omega
  have hM1 : (3 : ℝ) ≤ ((max H.rows H.cols : Nat) : ℝ) := by exact_mod_cast hMn
  have hub : ∀ w : Nat, w + 2 ≤ max H.rows H.cols →
      (w : ℝ) ≤ ((max H.rows H.cols : Nat) : ℝ) - 2 := by
    intro w hw
    have h2 : ((w : ℝ) + 2) ≤ ((max H.rows H.cols : Nat) : ℝ) := by exact_mod_cast hw
    linarith
  have hlb : ∀ w : Nat, 1 ≤ w → (1 : ℝ) ≤ (w : ℝ) := by
    intro w hw
    exact_mod_cast hw
  have hcu := hub u (by omega)
  have hcuu := hub uu (by omega)
  have hcv := hub v (by omega)
  have hcvv := hub vv (by omega)
  have h1u := hlb u hu1
  have h1uu := hlb uu huu1
  have h1v := hlb v hv1
  have h1vv := hlb vv hvv1
  have hsq1 : ((u : ℝ) - (uu : ℝ)) ^ 2 ≤ (((max H.rows H.cols : Nat) : ℝ) - 3) ^ 2 :=
    sq_le_sq' (by linarith) (by linarith)
  have hsq2 : ((v : ℝ) - (vv : ℝ)) ^ 2 ≤ (((max H.rows H.cols : Nat) : ℝ) - 3) ^ 2 :=
    sq_le_sq' (by linarith) (by linarith)
  have hM2 : (((max H.rows H.cols : Nat) : ℝ) - 3) ^ 2 ≤
      ((max H.rows H.cols : Nat) : ℝ) ^ 2 := by nlinarith [hM1]
  have hM3 : (2 : ℝ) ≤ ((max H.rows H.cols : Nat) : ℝ) ^ 2 := by nlinarith [hM1]
  have hS : ((u : ℝ) - (uu : ℝ)) ^ 2 + ((v : ℝ) - (vv : ℝ)) ^ 2 ≤
      (((max H.rows H.cols : Nat) : ℝ) ^ 2) ^ 2 := by
    nlinarith [hM2, hM3, hsq1, hsq2]
  calc Real.sqrt (((u : ℝ) - (uu : ℝ)) ^ 2 + ((v : ℝ) - (vv : ℝ)) ^ 2)
      ≤ Real.sqrt ((((max H.rows H.cols : Nat) : ℝ) ^ 2) ^ 2) := Real.sqrt_le_sqrt hS
    _ = ((max H.rows H.cols : Nat) : ℝ) ^ 2 := Real.sqrt_sq (by positivity)

/-- Claim C7: for candidate i = (u, v, h) of the thresholded maxima, the
computed suppression radius equals the minimum of the list dl of Euclidean
distances to the other candidates k with h < c * h_k (membership plus lower
bound below), and equals the sentinel max(rows, cols)^2 when dl is empty;
and whenever the threshold policy (mean + std when use_thresh, else the
min reduction, which raises on an empty map) produces a threshold, anms
returns the first n entries of the candidates sorted by this radius
descending, as coordinate lists — and propagates the threshold error
otherwise. -/
theorem anms_rmin_spec (H : Img ℝ) (t c : ℝ) (i u v : Nat) (h : ℝ)
    (hget : (get_maxima H t false)[i]? = some (u, v, h)) :
    (∀ dl : List ℝ,
      dl = ((get_maxima H t false).enum.filter
          (fun kp => decide (i ≠ kp.1 ∧ h < c * kp.2.2.2))).map
          (fun kp => Real.sqrt (((u : ℝ) - (kp.2.1 : ℝ)) ^ 2 +
            ((v : ℝ) - (kp.2.2.1 : ℝ)) ^ 2)) →
      (dl = [] →
        anmsRmin (get_maxima H t false) c (((max H.rows H.cols : Nat) : ℝ) ^ 2) i u v h =
          ((max H.rows H.cols : Nat) : ℝ) ^ 2) ∧
      (dl ≠ [] →
        anmsRmin (get_maxima H t false) c (((max H.rows H.cols : Nat) : ℝ) ^ 2) i u v h ∈ dl ∧
        ∀ d ∈ dl,
          anmsRmin (get_maxima H t false) c
            (((max H.rows H.cols : Nat) : ℝ) ^ 2) i u v h ≤ d)) ∧
    (∀ n : Nat, ∀ ut : Bool, ∀ thresh : ℝ, anmsThresh H ut = .ok thresh →
      anms H n c ut = .ok (maximaToUV
        ((((get_maxima H thresh false).enum.map
          (fun ip => (ip.2.1, ip.2.2.1,
            anmsRmin (get_maxima H thresh false) c
              (((max H.rows H.cols : Nat) : ℝ) ^ 2)
              ip.1 ip.2.1 ip.2.2.1 ip.2.2.2))).mergeSort
          (fun a b => decide (b.2.2 ≤ a.2.2))).take n))) ∧
    (∀ n : Nat, ∀ ut : Bool, ∀ e : String, anmsThresh H ut = .error e →
      anms H n c ut = .error e) := by
  refine ⟨?_, fun n ut thresh hth => anms_ok_of_thresh H n c ut thresh hth,
    fun n ut e he => anms_error_of_thresh H n c ut e he⟩
  · intro dl hdl
    have hfold := anmsRmin_eq (get_maxima H t false) c
      (((max H.rows H.cols : Nat) : ℝ) ^ 2) i u v h
    rw [← hdl] at hfold
    constructor
    · intro hnil
      rw [hfold, hnil]
      rfl
    · intro hne
      have hpmem : ((u, v, h) : Nat × Nat × ℝ) ∈ get_maxima H t false := by
        obtain ⟨hlt, hval⟩ := List.getElem?_eq_some.mp hget
        rw [← hval]
        exact List.getElem_mem hlt
      have hbound : ∀ d ∈ dl, d ≤ ((max H.rows H.cols : Nat) : ℝ) ^ 2 := by
        intro d hd
        rw [hdl, List.mem_map] at hd
        obtain ⟨kp, hkp, hdq⟩ := hd
        have hkp2 := List.mem_of_mem_filter hkp
        have h2 := List.mem_enum
          (show (kp.1, kp.2) ∈ (get_maxima H t false).enum from hkp2)
        have hmem : ((kp.2.1, kp.2.2.1, kp.2.2.2) : Nat × Nat × ℝ) ∈
            get_maxima H t false := by
          show kp.2 ∈ get_maxima H t false
          rw [h2.2]
          exact List.getElem_mem h2.1
        rw [← hdq]
        exact get_maxima_dist_le H t u v kp.2.1 kp.2.2.1 h kp.2.2.2 hpmem hmem
      rw [hfold]
      rcases foldl_min_mem_or dl (((max H.rows H.cols : Nat) : ℝ) ^ 2) with hcase | hcase
      · obtain ⟨d0, hd0⟩ := List.exists_mem_of_ne_nil dl hne
        have hle := (foldl_min_le dl (((max H.rows H.cols : Nat) : ℝ) ^ 2)).2 d0 hd0
        have heq : dl.foldl min (((max H.rows H.cols : Nat) : ℝ) ^ 2) = d0 :=
          le_antisymm hle (by rw [hcase]; exact hbound d0 hd0)
        exact ⟨heq ▸ hd0, (foldl_min_le dl _).2⟩
      · exact ⟨hcase, (foldl_min_le dl _).2⟩

theorem peak3R_maxima :
    get_maxima peak3R ((0 : ℤ) : ℝ) false = [(1, 1, ((5 : ℤ) : ℝ))] := by
  rw [show peak3R = peak3.map Int.cast from rfl,
    get_maxima_map Int.cast Int.cast_strictMono peak3 0]
  rw [show get_maxima peak3 0 false = [(1, 1, (5 : ℤ))] from by decide]
  rfl

/-- Claim C7 (witness): on the single-peak 3×3 map with threshold 0, the only
candidate has no significantly stronger neighbor, so its radius is the
sentinel max(3, 3)^2. -/
theorem anms_rmin_spec_witness :
    ((get_maxima peak3R ((0 : ℤ) : ℝ) false)[0]? = some (1, 1, ((5 : ℤ) : ℝ))) ∧
    anmsRmin (get_maxima peak3R ((0 : ℤ) : ℝ) false) (9 / 10)
      (((max peak3R.rows peak3R.cols : Nat) : ℝ) ^ 2) 0 1 1 ((5 : ℤ) : ℝ) =
      ((max peak3R.rows peak3R.cols : Nat) : ℝ) ^ 2 := by
  have hget : (get_maxima peak3R ((0 : ℤ) : ℝ) false)[0]? =
      some (1, 1, ((5 : ℤ) : ℝ)) := by
    rw [peak3R_maxima]
    rfl
  refine ⟨hget, ?_⟩
  have hspec := (anms_rmin_spec peak3R ((0 : ℤ) : ℝ) (9 / 10) 0 1 1
    ((5 : ℤ) : ℝ) hget).1
  refine (hspec _ rfl).1 ?_
  rw [peak3R_maxima]
  rw [show ([(1, 1, ((5 : ℤ) : ℝ))] : List (Nat × Nat × ℝ)).enum =
    [(0, 1, 1, ((5 : ℤ) : ℝ))] from rfl]
  rw [@List.filter_cons_of_neg _ _ _ _ (by simp)]
  rfl

theorem kdtreeSearch_none (maxima : List (Nat × Nat × ℝ)) (c : ℝ) (u v : Nat)
    (h : ℝ)
    (hno : ∀ k, 2 ≤ k → k < maxima.length → ∀ tpl : Nat × Nat × Nat × ℝ,
      (kdtreeQuery maxima u v)[k - 1]? = some tpl → ¬ (h < c * tpl.2.2.2)) :
    kdtreeSearch maxima c u v h = none := by
  unfold kdtreeSearch
  simp only
  rw [List.findSome?_eq_none_iff]
  intro k hk
  rw [List.mem_range'_1] at hk
  cases hq : (kdtreeQuery maxima u v)[k - 1]? with
  | none => simp [hq]
  | some tpl =>
    simp only [hq]
    rw [if_neg (hno k hk.1 (by omega) tpl hq)]

theorem get_maxima_coords_ne {α : Type} [LinearOrder α] (im : Img α) (t : α)
    (i1 i2 : Nat) (p1 p2 : Nat × Nat × α)
    (h1 : (get_maxima im t false)[i1]? = some p1)
    (h2 : (get_maxima im t false)[i2]? = some p2) (hne : i1 ≠ i2) :
    ¬ (p1.1 = p2.1 ∧ p1.2.1 = p2.2.1) := by
  rintro ⟨hj, hk⟩
  have hpw := get_maxima_rowmajor im t
  rw [List.pairwise_iff_getElem] at hpw
  obtain ⟨hl1, he1⟩ := List.getElem?_eq_some.mp h1
  obtain ⟨hl2, he2⟩ := List.getElem?_eq_some.mp h2
  rcases Nat.lt_or_ge i1 i2 with hlt | hge
  · have hr := hpw i1 i2 hl1 hl2 hlt
    rw [he1, he2] at hr
    rcases hr with hc | hc
    · omega
    · omega
  · have hlt2 : i2 < i1 := by omega
    have hr := hpw i2 i1 hl2 hl1 hlt2
    rw [he1, he2] at hr
    rcases hr with hc | hc
    · omega
    · omega

/-- Claim C8: a candidate (u, v, h) of the trimmed, thresholded maxima that
finds no significantly stronger neighbor at any rank k = 2..nm-1 of its
nearest-neighbor ordering contributes no entry at all: its progressive search
returns none (rather than a sentinel radius, unlike the brute-force variant),
and its shifted coordinates are absent from any returned coordinate lists. -/
theorem anms_kdtree_unsuppressed_absent (H : Img ℝ) (n : Nat) (c : ℝ)
    (edge : Nat) (ut : Bool) (i u v : Nat) (h : ℝ)
    (maxima : List (Nat × Nat × ℝ)) (thresh : ℝ)
    (hth : anmsThresh (H.trim edge) ut = .ok thresh)
    (hmax : maxima = get_maxima (H.trim edge) thresh false)
    (hget : maxima[i]? = some (u, v, h))
    (hno : ∀ k, 2 ≤ k → k < maxima.length → ∀ tpl : Nat × Nat × Nat × ℝ,
      (kdtreeQuery maxima u v)[k - 1]? = some tpl → ¬ (h < c * tpl.2.2.2)) :
    kdtreeSearch maxima c u v h = none ∧
    ∀ res : List Nat × List Nat, anms_kdtree H n c edge ut = .ok res →
      ((u + edge, v + edge) : Nat × Nat) ∉ res.1.zip res.2 := by
  have hnone := kdtreeSearch_none maxima c u v h hno
  refine ⟨hnone, ?_⟩
  intro res hres hmem
  rw [anms_kdtree_unfold H n c edge ut thresh hth, ← hmax] at hres
  by_cases hemp : maxima.isEmpty
  · rw [if_pos hemp] at hres
    exact Except.noConfusion hres
  · rw [if_neg hemp] at hres
    injection hres with hres2
    rw [← hres2] at hmem
    rw [show (maximaToUV (((maxima.enum.filterMap (fun ip =>
          (kdtreeSearch maxima c ip.2.1 ip.2.2.1 ip.2.2.2).map
            (fun d => (ip.2.1 + edge, ip.2.2.1 + edge, d)))).mergeSort
          (fun a b => decide (b.2.2 ≤ a.2.2))).take n)).1 =
        (((maxima.enum.filterMap (fun ip =>
          (kdtreeSearch maxima c ip.2.1 ip.2.2.1 ip.2.2.2).map
            (fun d => (ip.2.1 + edge, ip.2.2.1 + edge, d)))).mergeSort
          (fun a b => decide (b.2.2 ≤ a.2.2))).take n).map (fun p => p.1) from rfl,
      show (maximaToUV (((maxima.enum.filterMap (fun ip =>
          (kdtreeSearch maxima c ip.2.1 ip.2.2.1 ip.2.2.2).map
            (fun d => (ip.2.1 + edge, ip.2.2.1 + edge, d)))).mergeSort
          (fun a b => decide (b.2.2 ≤ a.2.2))).take n)).2 =
        (((maxima.enum.filterMap (fun ip =>
          (kdtreeSearch maxima c ip.2.1 ip.2.2.1 ip.2.2.2).map
            (fun d => (ip.2.1 + edge, ip.2.2.1 + edge, d)))).mergeSort
          (fun a b => decide (b.2.2 ≤ a.2.2))).take n).map (fun p => p.2.1) from rfl,
      List.zip_map'] at hmem
    rw [List.mem_map] at hmem
    obtain ⟨p, hpL, hproj⟩ := hmem
    have hps := List.mem_mergeSort.mp (List.mem_of_mem_take hpL)
    rw [List.mem_filterMap] at hps
    obtain ⟨ip, hip, hsome⟩ := hps
    rw [Option.map_eq_some'] at hsome
    obtain ⟨d, hdsome, hdp⟩ := hsome
    have he1 : ip.2.1 + edge = u + edge := by
      have := congrArg Prod.fst hproj
      rw [← hdp] at this
      exact this
    have he2 : ip.2.2.1 + edge = v + edge := by
      have := congrArg (fun q : Nat × Nat => q.2) hproj
      rw [← hdp] at this
      exact this
    have hu : ip.2.1 = u := by omega
    have hv : ip.2.2.1 = v := by omega
    have henum := List.mem_enum (show (ip.1, ip.2) ∈ maxima.enum from hip)
    have hq1 : maxima[ip.1]? = some ip.2 :=
      List.getElem?_eq_some.mpr ⟨henum.1, henum.2.symm⟩
    by_cases hii : ip.1 = i
    · rw [hii, hget] at hq1
      have hval := Option.some.inj hq1
      have h1' : ip.2.1 = u := by rw [← hval]
      have h2' : ip.2.2.1 = v := by rw [← hval]
      have h3' : ip.2.2.2 = h := by rw [← hval]
      rw [h1', h2', h3', hnone] at hdsome
      exact Option.noConfusion hdsome
    · have hcoords := get_maxima_coords_ne (H.trim edge) thresh ip.1 i ip.2
        (u, v, h) (by rw [← hmax]; exact hq1) (by rw [← hmax]; exact hget) hii
      exact hcoords ⟨hu, hv⟩

/-- A 5×5 map whose only interior-of-trim candidate is the center. -/
def peak5c : Img ℤ :=
  { rows := 5, cols := 5, data := fun k j => if k = 2 ∧ j = 2 then 7 else 0 }

/-- The same map with real scores. -/
noncomputable def peak5cR : Img ℝ := peak5c.map Int.cast

theorem peak5cR_trim_minVal : (peak5cR.trim 1).minVal = some ((0 : ℤ) : ℝ) := by
  rw [show peak5cR.trim 1 = (peak5c.trim 1).map Int.cast from rfl,
    minVal_map Int.cast Int.cast_mono (peak5c.trim 1),
    show (peak5c.trim 1).minVal = some 0 from by decide]
  rfl

theorem peak5cR_trim_maxima :
    get_maxima (peak5cR.trim 1) ((0 : ℤ) : ℝ) false = [(1, 1, ((7 : ℤ) : ℝ))] := by
  rw [show peak5cR.trim 1 = (peak5c.trim 1).map Int.cast from rfl,
    get_maxima_map Int.cast Int.cast_strictMono (peak5c.trim 1) 0,
    show get_maxima (peak5c.trim 1) 0 false = [(1, 1, (7 : ℤ))] from by decide]
  rfl

/-- Claim C8 (witness): with edge = 1 on the 5×5 single-center-peak map there
is exactly one trimmed candidate, the rank range 2..nm-1 is empty, and the
candidate is omitted from any returned result. -/
theorem anms_kdtree_unsuppressed_absent_witness :
    kdtreeSearch [(1, 1, ((7 : ℤ) : ℝ))] (9 / 10) 1 1 ((7 : ℤ) : ℝ) = none ∧
    ∀ res : List Nat × List Nat,
      anms_kdtree peak5cR 100 (9 / 10) 1 false = .ok res →
      ((1 + 1, 1 + 1) : Nat × Nat) ∉ res.1.zip res.2 := by
  have hth : anmsThresh (peak5cR.trim 1) false = .ok ((0 : ℤ) : ℝ) := by
    have h1 : anmsThresh (peak5cR.trim 1) false = npMin (peak5cR.trim 1) := rfl
    rw [h1]
    unfold npMin
    rw [peak5cR_trim_minVal]
  have hmax : ([(1, 1, ((7 : ℤ) : ℝ))] : List (Nat × Nat × ℝ)) =
      get_maxima (peak5cR.trim 1) ((0 : ℤ) : ℝ) false := peak5cR_trim_maxima.symm
  have hget : ([(1, 1, ((7 : ℤ) : ℝ))] : List (Nat × Nat × ℝ))[0]? =
      some (1, 1, ((7 : ℤ) : ℝ)) := rfl
  have hno : ∀ k, 2 ≤ k →
      k < ([(1, 1, ((7 : ℤ) : ℝ))] : List (Nat × Nat × ℝ)).length →
      ∀ tpl : Nat × Nat × Nat × ℝ,
      (kdtreeQuery [(1, 1, ((7 : ℤ) : ℝ))] 1 1)[k - 1]? = some tpl →
      ¬ (((7 : ℤ) : ℝ) < 9 / 10 * tpl.2.2.2) := by
    intro k hk1 hk2 tpl _
    exact absurd hk2 (by simp; omega)
  exact anms_kdtree_unsuppressed_absent peak5cR 100 (9 / 10) 1 false 0 1 1
    ((7 : ℤ) : ℝ) [(1, 1, ((7 : ℤ) : ℝ))] ((0 : ℤ) : ℝ) hth hmax hget hno

end FM
